import Mathlib

/-!
Verification development for the WhisperCC_MacOS_Local transcription
orchestrator (`src/whisper_transcription_tool`).

The Python source is shallowly embedded: pure control flow is translated
into Lean functions, and interactions with the outside world (the
recognizer subprocess, the filesystem, the ffmpeg converter, the
`AudioChunker` helper class and the event bus, which live outside the
provided source tree) are made explicit as oracle parameters / event
traces.  Machine-level details that the claims do not touch (logging,
`print` statements, the exact payload dictionaries of progress events)
are collapsed into tagged constructors, always keeping the fields that
the claims mention.
-/

set_option linter.unusedVariables false

/-- Python exception values that appear in the embedded fragments.
`msg` mirrors `str(e)`. -/
inductive PyExn
  | valueError (msg : String)
  | keyError (key : String)
  | timeoutError (msg : String)
  | other (msg : String)
deriving DecidableEq, Repr

/-- `str(e)` for an embedded Python exception. -/
def PyExn.msg : PyExn → String
  | .valueError m => m
  | .keyError k => k
  | .timeoutError m => m
  | .other m => m

/-- Result of running an embedded Python function: it can return a value,
let an exception escape to the caller, or fail to terminate. -/
inductive PyRun (α : Type)
  | ret (a : α)
  | raised (e : PyExn)
  | diverged
deriving DecidableEq, Repr

/-- The two output channels of the recognizer child process. -/
inductive SName
  | stdout
  | stderr
deriving DecidableEq, Repr

/-- Events published on the process-wide event bus.  The bus itself
(`core.events.publish`) is outside the provided sources; per §4.3 of the
spec `publish` never raises, so each call site is embedded as appending
one constructor to the trace.  Payload dictionaries are collapsed to the
fields the claims mention; miscellaneous `PROGRESS_UPDATE` status
messages become `progressStatus` with a short site tag. -/
inductive Ev
  | progressStatus (task tag : String)
  | terminalOutput (line : String)
  | progressParsed (p : Nat) (line : String)
  | chunkingStarted
  | chunkStarted (n total : Nat)
  | chunkFailed (n : Nat) (err : Option String)
  | chunkCompleted (n total : Nat)
  | transcriptionStarted
  | transcriptionCompleted
  | transcriptionFailed (err : String)
  | transcriptionCancelled
deriving DecidableEq, Repr

/-! ## `_stream_reader` (module1_transcribe/__init__.py, lines 366-388)

The worker thread reads lines from one subprocess stream with
`iter(stream.readline, '')`, puts each non-empty line on the shared
queue tagged with the stream name, and in a `finally` block puts the
sentinel `(stream_name, None)`.  A read (or close) error is caught,
logged and falls through to the `finally`.  The stream is embedded as
the list of outcomes successive `readline` calls would produce: a line,
or a raised exception.  An empty-string line is how `iter(..., '')`
signals end of stream. -/

/-- One outcome of a `stream.readline` call in `_stream_reader`. -/
inductive ReadEv
  | line (s : String)
  | readErr
deriving DecidableEq, Repr

/-- The queue items produced by the `for line in iter(stream.readline, '')`
loop body of `_stream_reader` (before the `finally` block). -/
def streamReaderLoop (name : SName) : List ReadEv → List (SName × Option String)
  | [] => []
  | .readErr :: _ => []
  | .line s :: r =>
    if s = "" then [] else (name, some s) :: streamReaderLoop name r

/-- `_stream_reader`: the full sequence of queue items the worker puts,
including the sentinel from the `finally` block. -/
def streamReader (name : SName) (evs : List ReadEv) : List (SName × Option String) :=
  streamReaderLoop name evs ++ [(name, none)]

/-! ## The progress-marker regex (lines 717-719 and 794-808)

`progress_pattern = re.compile(r'\[(\s*)([0-9]+)%\]')` searched with
`progress_pattern.search(line)`; on a match the code publishes a
`PROGRESS_UPDATE` whose `progress` field is `int(match.group(2))`.
Strings are embedded as `List Char`; `\s` is modelled on the ASCII
whitespace characters Python's `re` matches. -/

/-- ASCII whitespace, as matched by the `\s` class of the progress
pattern on recognizer output. -/
def wsChar (c : Char) : Bool :=
  c = ' ' || c = '\t' || c = '\n' || c = '\r' || c = '\x0b' || c = '\x0c'

/-- Decimal value of a digit run, as computed by Python `int`. -/
def digitsVal (ds : List Char) : Nat :=
  ds.foldl (fun a c => 10 * a + (c.toNat - '0'.toNat)) 0

/-- Attempt to match `(\s*)([0-9]+)%\]` directly after an opening
bracket, returning `int(group(2))` on success. -/
def matchAfterBracket (l : List Char) : Option Nat :=
  let ws := l.takeWhile wsChar
  let r1 := l.dropWhile wsChar
  let ds := r1.takeWhile Char.isDigit
  let r2 := r1.dropWhile Char.isDigit
  match r2 with
  | '%' :: ']' :: _ => if ds = [] then none else some (digitsVal ds)
  | _ => none

/-- `progress_pattern.search(line)` followed by `int(match.group(2))`:
the value parsed from the leftmost occurrence of the bracketed
percentage pattern, if any. -/
def parseProgress : List Char → Option Nat
  | [] => none
  | c :: rest =>
    if c = '[' then
      match matchAfterBracket rest with
      | some n => some n
      | none => parseProgress rest
    else parseProgress rest

/-- A bracketed percentage marker starts here: an opening bracket,
whitespace, a non-empty digit run, then `%]`. -/
def IsMarkerAt (l : List Char) : Prop :=
  ∃ ws ds rest, l = '[' :: (ws ++ ds ++ '%' :: ']' :: rest) ∧
    (∀ c ∈ ws, wsChar c) ∧ ds ≠ [] ∧ (∀ c ∈ ds, Char.isDigit c)

/-- The line contains a bracketed percentage marker somewhere. -/
def HasMarker (l : List Char) : Prop :=
  ∃ pre suf, l = pre ++ suf ∧ IsMarkerAt suf

/-- The line contains a bracketed percentage marker whose digit run has
value `n`. -/
def HasMarkerVal (l : List Char) (n : Nat) : Prop :=
  ∃ pre ws ds rest, l = pre ++ '[' :: (ws ++ ds ++ '%' :: ']' :: rest) ∧
    (∀ c ∈ ws, wsChar c = true) ∧ ds ≠ [] ∧
    (∀ c ∈ ds, Char.isDigit c = true) ∧ digitsVal ds = n

/-! ## The consumer loop of `transcribe_audio` (lines 739-826)

The loop multiplexes the shared queue, a wall-clock timeout
(`process_timeout = 3600`) and the child-process status:

```
while not all(streams_done.values()) or not output_queue.empty():
    elapsed_time = time.time() - process_start_time
    if elapsed_time > process_timeout:
        process.terminate(); wait(5) / kill(); cleanup; raise TimeoutError
    try:
        stream_name, line = output_queue.get(timeout=0.1)
        ... sentinel / stdout / stderr handling ...
    except queue.Empty:
        if process.poll() is not None:
            if threads alive: continue else: break
        continue
```

Queue contents, the clock, and the results of `poll()` /
`Thread.is_alive()` arrive from concurrently running threads, so one
loop iteration is embedded as a `Tick` carrying the values those calls
observe; the loop itself is a function over the list of ticks.  If the
tick list runs out while the loop still wants to run, the run is
reported as `starved` (the real loop would keep polling). -/

/-- What `output_queue.get(timeout=0.1)` produced on one iteration,
together with the `poll()` / `is_alive()` observations made in the
`queue.Empty` branch. -/
inductive QueueGet
  | item (s : SName) (l : Option String)
  | empty (procExited outAlive errAlive : Bool)
deriving DecidableEq, Repr

/-- The concurrent observations of one iteration of the consumer loop:
the elapsed wall-clock time at the head of the iteration, the value of
`output_queue.empty()` in the `while` condition, and the queue poll
outcome. -/
structure Tick where
  elapsed : ℚ
  queueIsEmpty : Bool
  get : QueueGet
deriving DecidableEq, Repr

/-- Mutable state of the consumer loop: the `streams_done` dict, the
accumulated `stdout` / `stderr` line lists and the events published so
far. -/
structure LoopState where
  doneOut : Bool := false
  doneErr : Bool := false
  stdoutLines : List String := []
  stderrLines : List String := []
  events : List Ev := []
deriving DecidableEq, Repr

/-- Initial `streams_done = {stdout: False, stderr: False}` state. -/
def initLoopState : LoopState := {}

/-- Process-handle operations performed on the timeout path. -/
inductive ProcOp
  | terminate
  | kill
  | cleanupTemp
deriving DecidableEq, Repr

/-- How one run of the consumer loop ended.  `timeoutFailure` carries
the triggering tick, the state at that moment and the process
operations performed (terminate, then kill if the graceful wait
expired, then best-effort cleanup) before `TimeoutError` is raised;
`exitNormal` carries the tick whose `while` condition was false;
`exitBroke` carries the tick whose `queue.Empty` branch hit `break`. -/
inductive LoopExit
  | exitNormal (t : Tick)
  | exitBroke (t : Tick)
  | timeoutFailure (t : Tick) (at_ : LoopState) (ops : List ProcOp)
  | starved
deriving DecidableEq, Repr

/-- The sentinel / stdout / stderr handling of one dequeued item
(lines 773-812): a sentinel marks its stream done; a stdout line is
recorded, echoed as a `terminal_output` progress event and, when the
progress pattern matches, also published as a parsed progress event; a
stderr line is only recorded. -/
def processItem (st : LoopState) (s : SName) (l : Option String) : LoopState :=
  match l with
  | none =>
    match s with
    | .stdout => { st with doneOut := true }
    | .stderr => { st with doneErr := true }
  | some line =>
    match s with
    | .stdout =>
      { st with
        stdoutLines := st.stdoutLines ++ [line]
        events := st.events ++ [Ev.terminalOutput line] ++
          (match parseProgress line.data with
           | some p => [Ev.progressParsed p line]
           | none => []) }
    | .stderr => { st with stderrLines := st.stderrLines ++ [line] }

/-- The consumer loop itself, over the observation schedule `ticks`,
with timeout budget `budget` (3600 in the source), `gOk` = whether the
child exits within the 5-second grace period after `terminate()`. -/
def consumerLoop (budget : ℚ) (gOk : Bool) :
    LoopState → List Tick → LoopState × LoopExit
  | st, [] => (st, .starved)
  | st, t :: ts =>
    if st.doneOut && st.doneErr && t.queueIsEmpty then
      (st, .exitNormal t)
    else if budget < t.elapsed then
      (st, .timeoutFailure t st
        ([ProcOp.terminate] ++ (if gOk then [] else [ProcOp.kill]) ++ [ProcOp.cleanupTemp]))
    else
      match t.get with
      | .item s l => consumerLoop budget gOk (processItem st s l) ts
      | .empty procExited outAlive errAlive =>
        if procExited then
          if outAlive || errAlive then consumerLoop budget gOk st ts
          else (st, .exitBroke t)
        else consumerLoop budget gOk st ts

/-! ## Data model

`core.models` is not part of the provided sources; the shapes below are
modelled from the spec (§3 data model) and from how the fields are used
at the call sites in `module1_transcribe/__init__.py`. -/

/-- Modelled from the spec: the `OutputFormat` enum of `core.models`
(§6 lists the four output forms; the call sites use `TXT`, `SRT`,
`VTT`, `JSON` with lowercase `value` strings). -/
inductive OutputFormat
  | txt
  | srt
  | vtt
  | json
deriving DecidableEq, Repr

def OutputFormat.value : OutputFormat → String
  | .txt => "txt"
  | .srt => "srt"
  | .vtt => "vtt"
  | .json => "json"

/-- `OutputFormat(s)` lookup by value. -/
def parseOutputFormat (s : String) : Option OutputFormat :=
  if s = "txt" then some .txt
  else if s = "srt" then some .srt
  else if s = "vtt" then some .vtt
  else if s = "json" then some .json
  else none

/-- Modelled from the spec: the `WhisperModel` enum of `core.models`;
the member names are the keys of `MODEL_SIZES` in the provided source. -/
inductive WhisperModel
  | tiny
  | base
  | small
  | medium
  | large
  | largeV1
  | largeV2
  | largeV3
  | largeV3Turbo
deriving DecidableEq, Repr

def WhisperModel.value : WhisperModel → String
  | .tiny => "tiny"
  | .base => "base"
  | .small => "small"
  | .medium => "medium"
  | .large => "large"
  | .largeV1 => "large-v1"
  | .largeV2 => "large-v2"
  | .largeV3 => "large-v3"
  | .largeV3Turbo => "large-v3-turbo"

/-- `WhisperModel(s)` lookup by value. -/
def parseWhisperModel (s : String) : Option WhisperModel :=
  if s = "tiny" then some .tiny
  else if s = "base" then some .base
  else if s = "small" then some .small
  else if s = "medium" then some .medium
  else if s = "large" then some .large
  else if s = "large-v1" then some .largeV1
  else if s = "large-v2" then some .largeV2
  else if s = "large-v3" then some .largeV3
  else if s = "large-v3-turbo" then some .largeV3Turbo
  else none

/-- `OutputFormat(output_format)` when a string was passed (raises
`ValueError` on an invalid value, as Python enums do); the enum itself
passes through. -/
def parseFormatArg : Sum String OutputFormat → Except PyExn OutputFormat
  | .inr f => .ok f
  | .inl s =>
    match parseOutputFormat s with
    | some f => .ok f
    | none => .error (.valueError (s ++ " is not a valid OutputFormat"))

/-- `WhisperModel(model)` when a string was passed. -/
def parseModelArg : Sum String WhisperModel → Except PyExn WhisperModel
  | .inr m => .ok m
  | .inl s =>
    match parseWhisperModel s with
    | some m => .ok m
    | none => .error (.valueError (s ++ " is not a valid WhisperModel"))

/-- A recognizer segment dictionary `{text, start, end}`; `start`/`end`
are read with `segment.get('start', 0)`, so they may be absent. -/
structure Seg where
  text : String := ""
  startT : Option ℚ := none
  endT : Option ℚ := none
deriving DecidableEq, Repr

/-- Lines 1128-1132: `adjusted_segment = segment.copy()` followed by
setting `start`/`end` to `segment.get(k, 0) + chunk_start_time`.  In
the embedding the copy is a new value by construction. -/
def adjustSegment (cst : ℚ) (s : Seg) : Seg :=
  { s with
    startT := some (s.startT.getD 0 + cst)
    endT := some (s.endT.getD 0 + cst) }

/-- Modelled from the spec: `TranscriptionResult` of `core.models`
(§3), with exactly the keyword fields the call sites pass. -/
structure TranscriptionResult where
  success : Bool
  text : Option String := none
  segments : Option (List Seg) := none
  outputFile : Option String := none
  error : Option String := none
  stderrL : Option (List String) := none
  language : Option String := none
  modelName : Option String := none
deriving DecidableEq, Repr

/-- A chunk descriptor as produced by `AudioChunker.split_audio`
(fields read at the call sites: `path`, `filename`, `start_time`). -/
structure ChunkInfo where
  path : String
  filename : String
  startTime : ℚ
deriving DecidableEq, Repr

/-- One entry of `chunk_transcriptions` (lines 1135-1139). -/
structure ChunkTrans where
  chunk : Nat
  text : Option String
  startTime : ℚ
deriving DecidableEq, Repr

/-- The slice of the configuration dictionary the embedded code reads:
`config.get("chunking", {}).get("enabled", True)` and
`config["output"]["default_directory"]` (absent key modelled as
`none`, whose lookup raises `KeyError`). -/
structure Config where
  chunkingEnabled : Bool := true
  outputDefaultDir : Option String := none
deriving DecidableEq, Repr

/-- The arguments of `transcribe_audio` / `transcribe_audio_chunked`
that the embedded control flow inspects.  The `srt_*` parameters are
passed through verbatim to the external subtitle formatter and are not
modelled. -/
structure TAArgs where
  audioPath : String
  outputFormat : Sum String OutputFormat
  language : Option String := none
  modelArg : Sum String WhisperModel
  outputPath : Option String := none
  outputDir : Option String := none
deriving DecidableEq, Repr

/-! ## `transcribe_audio_chunked` (lines 989-1225) -/

/-- The external operations `transcribe_audio_chunked` performs, as
oracles: `AudioChunker.get_audio_duration`, `AudioChunker.split_audio`,
the recursive single-shot `transcribe_audio` call per chunk (with
chunking disabled), `AudioChunker.merge_transcriptions`,
`get_output_path`, `ensure_directory_exists` and the output-file write.
`cleanup_chunks` and the final `cleanup_after_transcription` log their
failures and are therefore not failure cases here. -/
structure ChunkedEnv where
  duration : Except PyExn ℚ
  split : Except PyExn (List ChunkInfo)
  runChunk : Nat → ChunkInfo → Except PyExn TranscriptionResult
  mergeT : List ChunkTrans → Except PyExn String
  genPath : String
  ensureDirOut : Except PyExn Unit
  writeOutput : Except PyExn Unit

/-- Output-path resolution inside the `try` of the chunked pipeline
(lines 1152-1160): an explicit `output_path` wins, otherwise
`output_dir`, otherwise `config["output"]["default_directory"]`
(raising `KeyError` when absent); then `ensure_directory_exists`. -/
def resolveOutputPathChunked (args : TAArgs) (cfg : Config) (env : ChunkedEnv) :
    Except PyExn String :=
  let p : Except PyExn String :=
    match args.outputPath with
    | some p => .ok p
    | none =>
      match args.outputDir with
      | some _ => .ok env.genPath
      | none =>
        match cfg.outputDefaultDir with
        | some _ => .ok env.genPath
        | none => .error (.keyError "output")
  match p with
  | .error e => .error e
  | .ok p =>
    match env.ensureDirOut with
    | .error e => .error e
    | .ok _ => .ok p

/-- The per-chunk loop (lines 1076-1146): publish the chunk progress
and `CHUNK_STARTED` events, run the single-shot pipeline on the chunk;
on an unsuccessful result publish `CHUNK_FAILED` and continue with the
remaining chunks; on success shift the chunk's segments by its
`start_time`, extend the aggregates and publish `CHUNK_COMPLETED`.  An
exception from the per-chunk call aborts the loop (it is caught by the
surrounding `try`). -/
def chunkLoop (env : ChunkedEnv) (total : Nat) :
    List (Nat × ChunkInfo) → List ChunkTrans → List Seg → List Ev →
    Except PyExn (List ChunkTrans × List Seg) × List Ev
  | [], ts, sgs, evs => (.ok (ts, sgs), evs)
  | (i, c) :: rest, ts, sgs, evs =>
    let evs1 := evs ++
      [Ev.progressStatus "transcription" "chunk_processing", Ev.chunkStarted (i + 1) total]
    match env.runChunk i c with
    | .error e => (.error e, evs1)
    | .ok r =>
      if r.success then
        chunkLoop env total rest
          (ts ++ [⟨i + 1, r.text, c.startTime⟩])
          (sgs ++ (r.segments.getD []).map (adjustSegment c.startTime))
          (evs1 ++ [Ev.chunkCompleted (i + 1) total])
      else
        chunkLoop env total rest ts sgs (evs1 ++ [Ev.chunkFailed (i + 1) r.error])

/-- The `except Exception` handler of the chunked pipeline
(lines 1218-1225). -/
def chunkedExcept (e : PyExn) (evs : List Ev) : PyRun TranscriptionResult × List Ev :=
  let msg := "Error in chunked transcription: " ++ e.msg
  (.ret { success := false, error := some msg }, evs ++ [Ev.transcriptionFailed msg])

/-- `transcribe_audio_chunked`.  The enum conversions (lines 1015-1019)
happen before the `try` block, so their `ValueError` escapes to the
caller; everything from line 1028 on is inside `try ... except
Exception` and is converted to a failed result. -/
def transcribeAudioChunked (args : TAArgs) (cfg : Config) (env : ChunkedEnv) :
    PyRun TranscriptionResult × List Ev :=
  match parseFormatArg args.outputFormat with
  | .error e => (.raised e, [])
  | .ok _fmt =>
  match parseModelArg args.modelArg with
  | .error e => (.raised e, [])
  | .ok mdl =>
  match env.duration with
  | .error e => chunkedExcept e []
  | .ok _dur =>
  let evs0 : List Ev :=
    [Ev.progressStatus "transcription" "minutes",
     Ev.progressStatus "chunking" "start",
     Ev.chunkingStarted]
  match env.split with
  | .error e => chunkedExcept e evs0
  | .ok chunks =>
  let evs1 := evs0 ++
    [Ev.progressStatus "transcription" "chunks_created",
     Ev.progressStatus "chunking" "done"]
  match chunkLoop env chunks.length chunks.enum [] [] evs1 with
  | (.error e, evs) => chunkedExcept e evs
  | (.ok (ts, sgs), evs2) =>
  match env.mergeT ts with
  | .error e => chunkedExcept e evs2
  | .ok merged =>
  match resolveOutputPathChunked args cfg env with
  | .error e => chunkedExcept e evs2
  | .ok opath =>
  match env.writeOutput with
  | .error e => chunkedExcept e evs2
  | .ok _ =>
    (.ret { success := true
            text := some merged
            outputFile := some opath
            segments := some sgs
            modelName := some mdl.value
            language := args.language },
     evs2 ++ [Ev.transcriptionCompleted])

/-! ## The single-shot path of `transcribe_audio` (lines 538-986) -/

/-- Simplified Python `repr` of a string (quotes, no escape handling),
used because line 865 formats the *list* of stderr lines into the error
message. -/
def pyReprStr (s : String) : String := "'" ++ s ++ "'"

/-- Simplified Python `repr` of a list of strings. -/
def reprStrList (l : List String) : String :=
  "[" ++ String.intercalate ", " (l.map pyReprStr) ++ "]"

/-- `f"Whisper.cpp failed with return code {returncode}: {stderr}"`
(line 865; `stderr` is the list of collected lines). -/
def failRcMsg (rc : Int) (lines : List String) : String :=
  "Whisper.cpp failed with return code " ++ toString rc ++ ": " ++ reprStrList lines

/-- External-world oracles of the single-shot path: `get_output_path`,
`ensure_directory_exists` (line 550, before the `try`), the setup steps
inside the `try` up to the progress publish at line 690 (binary lookup,
model lookup/download, temp-directory resolution, video-audio
extraction, `os.chdir`), the `subprocess.Popen` call, the consumer-loop
observation schedule, whether the child exits within the 5-second grace
period after `terminate()`, the child's exit code, whether
`output.txt` exists, its contents, and the requested-format output
write (lines 896-928). -/
structure SingleEnv where
  genPath : String
  ensureDirPre : Except PyExn Unit
  setupPre : Except PyExn Unit
  spawn : Except PyExn Unit
  ticks : List Tick
  gracefulOk : Bool
  returncode : Int
  txtExists : Bool
  fileText : String
  writeOut : Except PyExn Unit

/-- Output-path resolution of the single-shot path (lines 539-550).
This runs *before* the `try` block, so a missing
`config["output"]["default_directory"]` or a failing
`ensure_directory_exists` raises out of `transcribe_audio`. -/
def resolveOutputPathSingle (args : TAArgs) (cfg : Config) (env : SingleEnv) :
    Except PyExn String :=
  let p : Except PyExn String :=
    match args.outputPath with
    | some p => .ok p
    | none =>
      match args.outputDir with
      | some _ => .ok env.genPath
      | none =>
        match cfg.outputDefaultDir with
        | some _ => .ok env.genPath
        | none => .error (.keyError "output")
  match p with
  | .error e => .error e
  | .ok p =>
    match env.ensureDirPre with
    | .error e => .error e
    | .ok _ => .ok p

/-- The `except Exception` handler of `transcribe_audio`
(lines 971-986): publish `TRANSCRIPTION_FAILED`, attempt cleanup (its
own failure is logged), return a failed result. -/
def singleExcept (e : PyExn) (evs : List Ev) : PyRun TranscriptionResult × List Ev :=
  let msg := "Error transcribing audio: " ++ e.msg
  (.ret { success := false, error := some msg }, evs ++ [Ev.transcriptionFailed msg])

/-- The single-shot pipeline of `transcribe_audio` after the chunking
decision (lines 538-986): resolve the output path (outside the `try`),
publish the start events, then inside `try`: setup, spawn, drive the
consumer loop, and convert the recognizer outcome into a
`TranscriptionResult`.  A `timeoutFailure` loop exit models the
`raise TimeoutError` of line 767, caught by the outer handler; a
`starved` loop exit means the modelled schedule ended while the real
loop would still be polling, so the run diverges. -/
def transcribeAudioSingle (args : TAArgs) (cfg : Config) (fmt : OutputFormat)
    (mdl : WhisperModel) (env : SingleEnv) : PyRun TranscriptionResult × List Ev :=
  match resolveOutputPathSingle args cfg env with
  | .error e => (.raised e, [])
  | .ok opath =>
  let evs0 : List Ev :=
    [Ev.transcriptionStarted,
     Ev.progressStatus "transcription" "starting",
     Ev.progressStatus "transcription" "starting5"]
  match env.setupPre with
  | .error e => singleExcept e evs0
  | .ok _ =>
  let evs1 := evs0 ++ [Ev.progressStatus "transcription" "loading20"]
  match env.spawn with
  | .error e => singleExcept e evs1
  | .ok _ =>
  match consumerLoop 3600 env.gracefulOk initLoopState env.ticks with
  | (st, .timeoutFailure _t _at _ops) =>
    singleExcept (.timeoutError "Transcription timed out after 3600 seconds")
      (evs1 ++ st.events)
  | (st, .starved) => (.diverged, evs1 ++ st.events)
  | (st, .exitNormal _) | (st, .exitBroke _) =>
    let evs2 := evs1 ++ st.events
    if env.returncode = 0 then
      let evs3 := evs2 ++ [Ev.progressStatus "transcription" "post95"]
      if env.txtExists then
        match env.writeOut with
        | .error e => singleExcept e evs3
        | .ok _ =>
          (.ret { success := true
                  text := some env.fileText
                  outputFile := some opath
                  language := args.language
                  modelName := some mdl.value },
           evs3 ++ [Ev.progressStatus "transcription" "completed100",
                    Ev.transcriptionCompleted])
      else
        let msg := "Output file not found: output.txt"
        (.ret { success := false, error := some msg },
         evs3 ++ [Ev.transcriptionFailed msg])
    else
      let msg := failRcMsg env.returncode st.stderrLines
      (.ret { success := false, error := some msg, stderrL := some st.stderrLines },
       evs2 ++ [Ev.progressStatus "transcription" "failed0", Ev.transcriptionFailed msg])

/-! ## `transcribe_audio` (lines 391-536 plus the single-shot path) -/

/-- Outcome of the Opus-conversion block (lines 444-486).  The block is
wrapped in its own `try`, and every failure mode (ffmpeg missing,
non-zero converter exit, exception) returns a failed result, so it
never raises. -/
inductive OpusOut
  | converted (p : String)
  | failedConv (err : String)
deriving DecidableEq, Repr

/-- ASCII lowercase conversion of one character, as `str.lower` acts
on path characters. -/
def lowerChar (c : Char) : Char :=
  if 65 ≤ c.toNat ∧ c.toNat ≤ 90 then Char.ofNat (c.toNat + 32) else c

/-- `audio_path.lower().endswith('.opus')`, on the character list. -/
def isOpusPath (s : String) : Bool :=
  decide ((s.data.map lowerChar).reverse.take 5 = ['s', 'u', 'p', 'o', '.'])

/-- External-world oracles of the `transcribe_audio` entry point:
`os.path.exists` on the source file, the Opus-conversion outcome,
`is_audio_chunkable` (with `get_audio_duration` for the status message,
both total per §4.4 of the spec), and the environments of the two
downstream pipelines. -/
structure TopEnv where
  fileExists : Bool
  opus : OpusOut
  chunkable : Bool
  chunkedEnv : ChunkedEnv
  singleEnv : SingleEnv

/-- The Opus block of `transcribe_audio` (lines 442-486): not an Opus
file — pass through; Opus and conversion succeeds — continue with the
converted path; Opus and conversion fails — return the failed result.
The initial conversion progress publish is the traced event. -/
def opusStep (args : TAArgs) (env : TopEnv) :
    (String × List Ev) ⊕ (PyRun TranscriptionResult × List Ev) :=
  if isOpusPath args.audioPath then
    match env.opus with
    | .converted p => .inl (p, [Ev.progressStatus "transcription" "opus_conversion"])
    | .failedConv err =>
      .inr (.ret { success := false, error := some err },
            [Ev.progressStatus "transcription" "opus_conversion"])
  else .inl (args.audioPath, [])

/-- `transcribe_audio` after the enum conversions: missing-file
validation returning a failed result, the Opus block, then the chunking
decision (line 509) delegating to `transcribe_audio_chunked`, otherwise
the single-shot pipeline. -/
def transcribeAudioValidated (args : TAArgs) (cfg : Config) (env : TopEnv)
    (fmt : OutputFormat) (mdl : WhisperModel) : PyRun TranscriptionResult × List Ev :=
  if !env.fileExists then
    (.ret { success := false, error := some ("Audio file not found: " ++ args.audioPath) }, [])
  else
    match opusStep args env with
    | .inr out => out
    | .inl (effPath, evsA) =>
      let evsB := evsA ++
        [Ev.progressStatus "transcription" "initialize0",
         Ev.progressStatus "transcription" "analyzing2"]
      if cfg.chunkingEnabled && env.chunkable then
        let evsC := evsB ++ [Ev.progressStatus "transcription" "split_info"]
        let out := transcribeAudioChunked { args with audioPath := effPath } cfg env.chunkedEnv
        (out.1, evsC ++ out.2)
      else
        let out :=
          transcribeAudioSingle { args with audioPath := effPath } cfg fmt mdl env.singleEnv
        (out.1, evsB ++ out.2)

/-- `transcribe_audio`: the enum conversions of lines 425-429 run first
and raise `ValueError` on invalid values; everything else is
`transcribeAudioValidated`. -/
def transcribeAudio (args : TAArgs) (cfg : Config) (env : TopEnv) :
    PyRun TranscriptionResult × List Ev :=
  match parseFormatArg args.outputFormat with
  | .error e => (.raised e, [])
  | .ok fmt =>
    match parseModelArg args.modelArg with
    | .error e => (.raised e, [])
    | .ok mdl => transcribeAudioValidated args cfg env fmt mdl

/-! ## `cancel_current_transcription` (lines 97-126)

The function mutates two module-level globals:
`current_transcription_process` and `cancellation_requested`. -/

/-- A child-process handle; `running` is `poll() is None`. -/
structure ProcHandle where
  pid : Nat
  running : Bool
deriving DecidableEq, Repr

/-- The module-level state read and written by
`cancel_current_transcription`. -/
structure CancelSt where
  proc : Option ProcHandle := none
  cancelRequested : Bool := false
deriving DecidableEq, Repr

/-- `cancel_current_transcription`, returning
(return value, new global state, published events, process operations
performed).  `exitsOnTerm` is whether the child exits within the
5-second `wait` after `terminate()`; if not, the code escalates to
`kill()`. -/
def cancelCurrentTranscription (st : CancelSt) (exitsOnTerm : Bool) :
    Bool × CancelSt × List Ev × List ProcOp :=
  let st1 : CancelSt := { st with cancelRequested := true }
  match st1.proc with
  | some p =>
    if p.running then
      let ops := [ProcOp.terminate] ++ (if exitsOnTerm then [] else [ProcOp.kill])
      (true, { st1 with proc := none }, [Ev.transcriptionCancelled], ops)
    else
      (st1.cancelRequested, st1, [], [])
  | none => (st1.cancelRequested, st1, [], [])

/-! ## `progress_event_handler` (web/__init__.py, lines 86-162)

The handler snapshots `progress_websockets` into a list, sends the
serialized event to each socket in the snapshot, and on a send failure
discards exactly that socket from the live set (each send and each
discard wrapped in its own `try`; the whole handler body wrapped in an
outermost `try`, so nothing propagates to the publisher).  Sockets are
embedded as identifiers, the registration set as a list, and the
outcome of `ws.send_text` as the oracle `sendOk`. -/

/-- WebSocket connection identifier. -/
abbrev WSock := Nat

/-- The delivery loop of `progress_event_handler` for one
`PROGRESS_UPDATE` event: fold over the snapshot, discarding each
failing socket from the registration set.  Returns
(sockets to which a send was attempted, final registration set). -/
def progressEventHandler (regs : List WSock) (sendOk : WSock → Bool) :
    List WSock × List WSock :=
  let snapshot := regs
  (snapshot,
   snapshot.foldl (fun live ws => if sendOk ws then live else live.filter (· ≠ ws)) regs)

/-! ## The chunk-config aliasing of `transcribe_audio_chunked`
(lines 1102-1112)

```
chunk_config = config.copy()
chunk_config["chunking"]["enabled"] = False
```

`dict.copy()` is shallow: the copy maps the same keys to the same
object references, so `chunk_config["chunking"]` and
`config["chunking"]` are one dict object.  To state this, Python dicts
are embedded with an explicit heap of dictionary objects. -/

/-- Heap address of a dictionary object. -/
abbrev Addr := Nat

/-- A Python value stored in a dict: a scalar or a reference to
another dict object. -/
inductive PyVal
  | vBool (b : Bool)
  | vStr (s : String)
  | vNum (q : ℚ)
  | vRef (a : Addr)
deriving DecidableEq, Repr

/-- A dictionary object: association list of keys to values. -/
abbrev PyDict := List (String × PyVal)

/-- Look up a key in a dict object. -/
def dictGet : PyDict → String → Option PyVal
  | [], _ => none
  | (k2, v2) :: rest, k => if k2 = k then some v2 else dictGet rest k

/-- `d[k] = v`: replace the first binding of `k` in place, or append
a new binding. -/
def dictSet : PyDict → String → PyVal → PyDict
  | [], k, v => [(k, v)]
  | (k2, v2) :: rest, k, v =>
    if k2 = k then (k, v) :: rest else (k2, v2) :: dictSet rest k v

/-- The heap of dict objects: `next` is the next fresh address,
`data` the object store. -/
structure Heap where
  next : Addr
  data : Addr → PyDict

/-- `config.copy()`: allocate a fresh dict object with the same
(shallow) bindings. -/
def heapCopy (h : Heap) (a : Addr) : Addr × Heap :=
  (h.next,
   { next := h.next + 1
     data := fun x => if x = h.next then h.data a else h.data x })

/-- Overwrite one dict object in the heap. -/
def heapSet (h : Heap) (a : Addr) (d : PyDict) : Heap :=
  { h with data := fun x => if x = a then d else h.data x }

/-- Lines 1103-1104: `chunk_config = config.copy()` then
`chunk_config["chunking"]["enabled"] = False`.  The nested assignment
first evaluates `chunk_config["chunking"]` (raising `KeyError` when the
key is absent, `TypeError` when it is not a dict reference), then
mutates that shared dict object.  Returns the address of
`chunk_config` and the new heap. -/
def disableChunkingForChunk (h : Heap) (config : Addr) :
    Except PyExn (Addr × Heap) :=
  let cc := (heapCopy h config).1
  let h1 := (heapCopy h config).2
  match dictGet (h1.data cc) "chunking" with
  | some (.vRef a) =>
    .ok (cc, heapSet h1 a (dictSet (h1.data a) "enabled" (.vBool false)))
  | some _ => .error (.other "TypeError: item assignment on non-dict")
  | none => .error (.keyError "chunking")

/-- The per-chunk loop performs the copy-and-disable pair once per
chunk (lines 1102-1104 run inside the `for` loop); no other statement
of `transcribe_audio_chunked` writes to the `"chunking"` dict (the
later `config = load_config()` at line 1203 only rebinds the local
name).  This iterates the heap effect of dispatching `n` chunks. -/
def chunkLoopHeap (h : Heap) (config : Addr) : Nat → Except PyExn Heap
  | 0 => .ok h
  | n + 1 =>
    match disableChunkingForChunk h config with
    | .error e => .error e
    | .ok (_, h1) => chunkLoopHeap h1 config n

/-! ## CueSegmenter (spec §4.6)

The implementation (`output_formatter.segments_to_srt`, called at
lines 899-916 and 1166-1174) is not among the provided source files, so
the segmenter below is modelled from the spec: walk the words of the
time-coded segments in order, accumulate words into the current cue
while both the character bound and the duration bound would still hold,
otherwise close the cue and open a new one at the next word; word-level
timestamps are interpolated evenly inside each segment; when
`linebreaks` is enabled, a closed cue longer than half the character
bound is split into two lines at the separator nearest its midpoint
without altering timing; cues are numbered sequentially from 1.
Per §4.6 the `[20,120]` / `[1.0,10.0]` clamping of the bounds is done
by the callers, not here.  Python strings are embedded as `List Char`. -/

/-- Embedded Python string. -/
abbrev Str := List Char

/-- Modelled from the spec: `str.split()` — maximal non-whitespace
runs, empty pieces dropped. -/
def splitWords : List Char → List Str
  | [] => []
  | c :: r =>
    if wsChar c then splitWords r
    else (c :: r.takeWhile (fun x => !wsChar x)) :: splitWords (r.dropWhile (fun x => !wsChar x))
termination_by l => l.length
decreasing_by
  · simp only [List.length_cons]
    omega
  · simp only [List.length_cons]
    have hlen : ∀ l : List Char, (l.dropWhile (fun x => !wsChar x)).length ≤ l.length := by
      intro l
      induction l with
      | nil => simp
      | cons a t ih =>
        by_cases h : (!wsChar a) = true
        · simp only [List.dropWhile_cons, h, if_true]
          exact ih.trans (Nat.le_succ _)
        · simp [List.dropWhile_cons, h]
    exact Nat.lt_succ_of_le (hlen _)

/-- Modelled from the spec: an `AudioSegment` `{text, start, end}`
(§3 data model). -/
structure ASeg where
  text : Str
  startT : ℚ
  endT : ℚ
deriving DecidableEq, Repr

/-- A word with its interpolated time window. -/
structure TW where
  text : Str
  tstart : ℚ
  tend : ℚ
deriving DecidableEq, Repr

/-- Modelled from the spec: word-level timestamps are unavailable, so
the `k` words of a segment share its window in `k` even slices. -/
def segTimedWords (sg : ASeg) : List TW :=
  let ww := splitWords sg.text
  let k : ℚ := (ww.length : ℚ)
  ww.enum.map (fun iw =>
    ⟨iw.2,
      sg.startT + (sg.endT - sg.startT) * (iw.1 : ℚ) / k,
      sg.startT + (sg.endT - sg.startT) * ((iw.1 : ℚ) + 1) / k⟩)

/-- All words of the input segments, in order, with time windows. -/
def timedWords (segs : List ASeg) : List TW := segs.flatMap segTimedWords

/-- Length of words joined by single-character separators. -/
def joinLen : List Str → Nat
  | [] => 0
  | [w] => w.length
  | w :: r => w.length + 1 + joinLen r

/-- A cue under construction / a finished cue: its words and time
window.  The rendered `text` is produced by `cueText`. -/
structure Cue where
  cws : List Str
  cstart : ℚ
  cend : ℚ
deriving DecidableEq, Repr

/-- Modelled from the spec: the next word still fits the current cue —
adding it keeps the text within `max_chars` and the cue duration within
`max_duration`. -/
def canAdd (mc : Nat) (md : ℚ) (cur : Cue) (w : TW) : Bool :=
  decide (joinLen (cur.cws ++ [w.text]) ≤ mc) && decide (w.tend - cur.cstart ≤ md)

/-- Open a new cue at a word. -/
def cueOfWord (w : TW) : Cue := ⟨[w.text], w.tstart, w.tend⟩

/-- Modelled from the spec: the greedy accumulation walk.  When either
bound would be exceeded the current cue is closed (its end snapped to
the last included word's timestamp) and a new cue starts at the next
word. -/
def buildCues (mc : Nat) (md : ℚ) : List TW → Cue → List Cue
  | [], cur => [cur]
  | w :: r, cur =>
    if canAdd mc md cur w then
      buildCues mc md r ⟨cur.cws ++ [w.text], cur.cstart, w.tend⟩
    else
      cur :: buildCues mc md r (cueOfWord w)

/-- Modelled from the spec: CueSegmenter mode (a) — segment list in,
cue list out. -/
def segmentsToCues (mc : Nat) (md : ℚ) (segs : List ASeg) : List Cue :=
  match timedWords segs with
  | [] => []
  | w :: r => buildCues mc md r (cueOfWord w)

/-- Distance between two naturals. -/
def natDist (a b : Nat) : Nat := max a b - min a b

/-- Index of the pair with the least second component (first wins
ties). -/
def chooseMinAux : Option (Nat × Nat) → List (Nat × Nat) → Option (Nat × Nat)
  | best, [] => best
  | none, x :: r => chooseMinAux (some x) r
  | some b, x :: r => chooseMinAux (some (if x.2 < b.2 then x else b)) r

/-- Modelled from the spec: when the cue text exceeds roughly half its
max length, choose the word separator nearest the midpoint of the
joined text as the line-break position. -/
def pickBreak (mc : Nat) (ws : List Str) : Option Nat :=
  if 2 * joinLen ws ≤ mc then none
  else
    let mid := joinLen ws / 2
    let cands := (List.range (ws.length - 1)).map
      (fun i => (i, natDist (joinLen (ws.take (i + 1))) mid))
    (chooseMinAux none cands).map (·.1)

/-- Join words with single-character separators, where separator number
`brk` (if any) is a newline and all others are spaces; `i` is the index
of the next separator. -/
def renderAux (brk : Option Nat) : Nat → List Str → Str
  | _, [] => []
  | i, w :: r => ((if brk = some i then '\n' else ' ') :: w) ++ renderAux brk (i + 1) r

/-- Words joined by separators, with at most one newline at `brk`. -/
def renderWords (brk : Option Nat) : List Str → Str
  | [] => []
  | w :: r => w ++ renderAux brk 0 r

/-- The rendered text of a cue: words joined with spaces, with the
line break inserted when `linebreaks` is enabled and the cue is long
enough. -/
def cueText (linebreaks : Bool) (mc : Nat) (c : Cue) : Str :=
  renderWords (if linebreaks then pickBreak mc c.cws else none) c.cws

/-- Modelled from the spec: output cues are numbered sequentially
starting at 1. -/
def numberCues (cs : List Cue) : List (Nat × Cue) :=
  cs.enum.map (fun ic => (ic.1 + 1, ic.2))

/-- A 25-character single word, longer than a `max_chars` of 20. -/
def wBig : Str := List.replicate 25 'a'

/-! ## Closed forms of the per-chunk loop

With `f i` the single-shot result of chunk `i`, these recursions give,
independently of the loop, the surviving chunk transcriptions, the
aggregated time-shifted segments and the per-chunk event trace. -/

/-- The `chunk_transcriptions` list: one entry per successful chunk, in
chunk order. -/
def chunkTransOf (f : Nat → TranscriptionResult) : Nat → List ChunkInfo → List ChunkTrans
  | _, [] => []
  | i, c :: r =>
    (if (f i).success then [⟨i + 1, (f i).text, c.startTime⟩] else []) ++
      chunkTransOf f (i + 1) r

/-- The `all_segments` list: the concatenation, in chunk order, of each
successful chunk's segments shifted by that chunk's `start_time`. -/
def chunkSegsOf (f : Nat → TranscriptionResult) : Nat → List ChunkInfo → List Seg
  | _, [] => []
  | i, c :: r =>
    (if (f i).success then ((f i).segments.getD []).map (adjustSegment c.startTime) else []) ++
      chunkSegsOf f (i + 1) r

/-- The events published by the chunk loop. -/
def chunkEvsOf (f : Nat → TranscriptionResult) (total : Nat) : Nat → List ChunkInfo → List Ev
  | _, [] => []
  | i, c :: r =>
    [Ev.progressStatus "transcription" "chunk_processing", Ev.chunkStarted (i + 1) total] ++
    (if (f i).success then [Ev.chunkCompleted (i + 1) total]
     else [Ev.chunkFailed (i + 1) (f i).error]) ++
    chunkEvsOf f total (i + 1) r

/-! ## Concrete data used by the witnesses -/

/-- A concrete chunk descriptor. -/
def wChunkInfo (i : Nat) : ChunkInfo :=
  ⟨"chunk" ++ toString i ++ ".mp3", "chunk" ++ toString i ++ ".mp3",
   if i = 0 then 0 else if i = 1 then 1200 else 2400⟩

/-- Concrete per-chunk single-shot results: chunk 2 (index 1) fails,
the others succeed. -/
def wChunkResult (i : Nat) : TranscriptionResult :=
  if i = 1 then { success := false, error := some "boom" }
  else
    { success := true
      text := some ("t" ++ toString (i + 1))
      segments := some [{ text := "s", startT := some 1, endT := some 2 }] }

/-- A concrete merge oracle: join the chunk texts with spaces. -/
def wMerge (ts : List ChunkTrans) : String :=
  String.intercalate " " (ts.map (fun t => t.text.getD ""))

/-- A concrete chunked-pipeline environment for a 3-chunk job. -/
def wChunkedEnv : ChunkedEnv :=
  { duration := .ok 3600
    split := .ok [wChunkInfo 0, wChunkInfo 1, wChunkInfo 2]
    runChunk := fun i _ => .ok (wChunkResult i)
    mergeT := fun ts => .ok (wMerge ts)
    genPath := "out.json"
    ensureDirOut := .ok ()
    writeOutput := .ok () }

/-- Concrete arguments for the witnesses. -/
def wArgs : TAArgs :=
  { audioPath := "long.mp3"
    outputFormat := Sum.inr OutputFormat.json
    modelArg := Sum.inr WhisperModel.largeV3Turbo
    outputPath := some "out.json" }

/-- A concrete configuration for the witnesses. -/
def wCfg : Config := { chunkingEnabled := true, outputDefaultDir := some "outdir" }

/-- A concrete consumer-loop schedule: both sentinels arrive, then the
`while` condition observes both streams done and an empty queue. -/
def wTicks : List Tick :=
  [⟨10, true, QueueGet.item SName.stdout none⟩,
   ⟨11, true, QueueGet.item SName.stderr none⟩,
   ⟨12, true, QueueGet.empty false true true⟩]

/-- A concrete single-shot environment: everything succeeds. -/
def wSingleEnv : SingleEnv :=
  { genPath := "out.txt"
    ensureDirPre := .ok ()
    setupPre := .ok ()
    spawn := .ok ()
    ticks := wTicks
    gracefulOk := true
    returncode := 0
    txtExists := true
    fileText := "hello"
    writeOut := .ok () }

/-- A concrete top-level environment taking the single-shot path. -/
def wTopEnv : TopEnv :=
  { fileExists := true
    opus := OpusOut.converted "x"
    chunkable := false
    chunkedEnv := wChunkedEnv
    singleEnv := wSingleEnv }

/-- The result of the fully successful concrete single-shot run. -/
def wGoodRes : TranscriptionResult :=
  { success := true
    text := some "hello"
    outputFile := some "out.json"
    language := none
    modelName := some "large-v3-turbo" }

theorem streamReaderLoop_no_sentinel (name : SName) (evs : List ReadEv) :
    ∀ x ∈ streamReaderLoop name evs, ∃ s, x = (name, some s) ∧ s ≠ "" := by
  induction evs with
  | nil => intro x hx; simp [streamReaderLoop] at hx
  | cons e r ih =>
    intro x hx
    cases e with
    | readErr => simp [streamReaderLoop] at hx
    | line s =>
      by_cases hs : s = ""
      · simp [streamReaderLoop, hs] at hx
      · simp only [streamReaderLoop, if_neg hs, List.mem_cons] at hx
        rcases hx with rfl | hx
        · exact ⟨s, rfl, hs⟩
        · exact ih x hx

/-- Claim C4: every execution of the stream reader worker — including
one whose read raises — ends by putting exactly one sentinel pair
`(stream_name, None)` on the queue; a read error is treated as
end-of-channel (the worker immediately falls through to the sentinel)
instead of propagating, and every other queue item is a tagged
non-empty line. -/
theorem c4_stream_reader_single_sentinel (name : SName) (evs : List ReadEv) :
    (streamReader name evs).getLast? = some (name, none) ∧
    (streamReader name evs).count (name, none) = 1 ∧
    (∀ r, streamReader name (ReadEv.readErr :: r) = [(name, none)]) ∧
    (∀ x ∈ streamReader name evs, x = (name, none) ∨ ∃ s, x = (name, some s) ∧ s ≠ "") := by
  have hno := streamReaderLoop_no_sentinel name evs
  refine ⟨?_, ?_, ?_, ?_⟩
  · exact List.getLast?_concat _
  · rw [streamReader, List.count_append]
    have h0 : (streamReaderLoop name evs).count (name, none) = 0 := by
      rw [List.count_eq_zero]
      intro hmem
      rcases hno _ hmem with ⟨s, hs, _⟩
      have : (none : Option String) = some s := congrArg Prod.snd hs
      exact Option.noConfusion this
    simp [h0]
  · intro r
    simp [streamReader, streamReaderLoop]
  · intro x hx
    rcases List.mem_append.mp hx with h | h
    · exact Or.inr (hno x h)
    · simp only [List.mem_singleton] at h
      exact Or.inl h

/-- Witness for C4 at a concrete stream trace containing a read error. -/
theorem c4_witness :
    (streamReader SName.stdout [ReadEv.line "a", ReadEv.readErr]).getLast? =
      some (SName.stdout, none) ∧
    streamReader SName.stdout [ReadEv.readErr] = [(SName.stdout, none)] :=
  ⟨(c4_stream_reader_single_sentinel SName.stdout [ReadEv.line "a", ReadEv.readErr]).1,
   (c4_stream_reader_single_sentinel SName.stdout []).2.2.1 []⟩

/-- Splitting a list at a run boundary: `takeWhile` keeps exactly a
prefix all of whose elements satisfy `p` when the next element (if any)
does not. -/
theorem takeWhile_app {α : Type} (p : α → Bool) :
    ∀ xs r : List α, (∀ c ∈ xs, p c = true) → (∀ y t, r = y :: t → p y = false) →
      (xs ++ r).takeWhile p = xs ∧ (xs ++ r).dropWhile p = r := by
  intro xs
  induction xs with
  | nil =>
    intro r _ hr
    cases r with
    | nil => simp
    | cons y t =>
      have hy := hr y t rfl
      simp [List.takeWhile_cons, List.dropWhile_cons, hy]
  | cons x xs ih =>
    intro r hxs hr
    have hx := hxs x (List.mem_cons_self x xs)
    obtain ⟨h1, h2⟩ := ih r (fun c hc => hxs c (List.mem_cons_of_mem x hc)) hr
    simp [List.takeWhile_cons, List.dropWhile_cons, hx, h1, h2]

/-- A digit is not one of the whitespace characters matched by `\s`. -/
theorem digit_not_ws {c : Char} (h : Char.isDigit c = true) : wsChar c = false := by
  cases hw : wsChar c
  · rfl
  · exfalso
    simp only [wsChar, Bool.or_eq_true, decide_eq_true_eq] at hw
    rcases hw with ((((rfl | rfl) | rfl) | rfl) | rfl) | rfl <;> exact absurd h (by decide)


/-- The bracket matcher succeeds on a well-formed marker body and
returns the digit-run value. -/
theorem matchAfterBracket_complete (ws ds rest : List Char)
    (hws : ∀ c ∈ ws, wsChar c = true) (hds : ∀ c ∈ ds, Char.isDigit c = true)
    (hne : ds ≠ []) :
    matchAfterBracket (ws ++ ds ++ '%' :: ']' :: rest) = some (digitsVal ds) := by
  obtain ⟨d, ds2, rfl⟩ : ∃ d ds2, ds = d :: ds2 := by
    cases ds with
    | nil => exact absurd rfl hne
    | cons d t => exact ⟨d, t, rfl⟩
  have hd : Char.isDigit d = true := hds d (List.mem_cons_self ..)
  have h1 := takeWhile_app wsChar ws (d :: (ds2 ++ '%' :: ']' :: rest)) hws
    (by
      intro y t ht
      injection ht with hy _
      subst hy
      exact digit_not_ws hd)
  have h2 := takeWhile_app Char.isDigit (d :: ds2) ('%' :: ']' :: rest) hds
    (by
      intro y t ht
      injection ht with hy _
      subst hy
      decide)
  rw [List.append_assoc, List.cons_append]
  have h2a : (d :: (ds2 ++ '%' :: ']' :: rest)).takeWhile Char.isDigit = d :: ds2 := by
    have := h2.1
    simpa [List.cons_append] using this
  have h2b : (d :: (ds2 ++ '%' :: ']' :: rest)).dropWhile Char.isDigit = '%' :: ']' :: rest := by
    have := h2.2
    simpa [List.cons_append] using this
  simp only [matchAfterBracket, h1.1, h1.2, h2a, h2b]
  simp

/-- The bracket matcher only succeeds on a well-formed marker body. -/
theorem matchAfterBracket_sound (t : List Char) (n : Nat)
    (h : matchAfterBracket t = some n) :
    ∃ ws ds rest, t = ws ++ ds ++ '%' :: ']' :: rest ∧ (∀ c ∈ ws, wsChar c = true) ∧
      ds ≠ [] ∧ (∀ c ∈ ds, Char.isDigit c = true) ∧ digitsVal ds = n := by
  simp only [matchAfterBracket] at h
  split at h
  case h_2 => exact absurd h (by simp)
  case h_1 rest heq =>
    split at h
    case isTrue => exact absurd h (by simp)
    case isFalse hne =>
      injection h with hval
      refine ⟨t.takeWhile wsChar, (t.dropWhile wsChar).takeWhile Char.isDigit, rest,
        ?_, ?_, hne, ?_, hval⟩
      · rw [List.append_assoc]
        nth_rewrite 1 [(List.takeWhile_append_dropWhile (p := wsChar) (l := t)).symm]
        congr 1
        nth_rewrite 1 [(List.takeWhile_append_dropWhile (p := Char.isDigit)
          (l := t.dropWhile wsChar)).symm]
        rw [heq]
      · intro c hc
        exact List.mem_takeWhile_imp hc
      · intro c hc
        exact List.mem_takeWhile_imp hc

/-- Soundness of the leftmost search: a parse result corresponds to a
marker occurrence with that value. -/
theorem parseProgress_sound :
    ∀ (l : List Char) (n : Nat), parseProgress l = some n → HasMarkerVal l n := by
  intro l
  induction l with
  | nil =>
    intro n h
    simp [parseProgress] at h
  | cons c t ih =>
    intro n h
    by_cases hc : c = '['
    · subst hc
      rw [parseProgress, if_pos rfl] at h
      cases hmb : matchAfterBracket t with
      | some m =>
        rw [hmb] at h
        injection h with hmn
        subst hmn
        obtain ⟨ws, ds, rest, ht, hws, hne, hds, hval⟩ := matchAfterBracket_sound t m hmb
        exact ⟨[], ws, ds, rest, by rw [ht]; simp [List.append_assoc], hws, hne, hds, hval⟩
      | none =>
        rw [hmb] at h
        obtain ⟨pre, ws, ds, rest, ht, hws, hne, hds, hval⟩ := ih n h
        exact ⟨'[' :: pre, ws, ds, rest, by rw [ht]; rfl, hws, hne, hds, hval⟩
    · rw [parseProgress, if_neg hc] at h
      obtain ⟨pre, ws, ds, rest, ht, hws, hne, hds, hval⟩ := ih n h
      exact ⟨c :: pre, ws, ds, rest, by rw [ht]; rfl, hws, hne, hds, hval⟩

/-- Completeness of the leftmost search: if the line contains a marker,
the search succeeds. -/
theorem parseProgress_complete :
    ∀ l : List Char, HasMarker l → ∃ n, parseProgress l = some n := by
  intro l
  induction l with
  | nil =>
    rintro ⟨pre, suf, hl, ws, ds, rest, hsuf, hws, hne, hds⟩
    obtain ⟨hpre, hsufnil⟩ := List.append_eq_nil.mp hl.symm
    rw [hsufnil] at hsuf
    exact absurd hsuf (by simp)
  | cons c t ih =>
    rintro ⟨pre, suf, hl, hm⟩
    cases pre with
    | nil =>
      obtain ⟨ws, ds, rest, hsuf, hws, hne, hds⟩ := hm
      rw [List.nil_append] at hl
      rw [← hl] at hsuf
      injection hsuf with hc ht
      subst hc
      refine ⟨digitsVal ds, ?_⟩
      rw [parseProgress, if_pos rfl, ht]
      have hcm := matchAfterBracket_complete ws ds rest
        (fun c hc => by simpa using hws c hc) (fun c hc => by simpa using hds c hc) hne
      rw [List.append_assoc] at hcm ⊢
      rw [hcm]
    | cons c2 pre2 =>
      injection hl with hc2 ht
      subst hc2
      have hmt : HasMarker t := ⟨pre2, suf, ht, hm⟩
      obtain ⟨n, hn⟩ := ih hmt
      by_cases hc : c = '['
      · subst hc
        cases hmb : matchAfterBracket t with
        | some m =>
          exact ⟨m, by rw [parseProgress, if_pos rfl, hmb]⟩
        | none =>
          exact ⟨n, by rw [parseProgress, if_pos rfl, hmb]; exact hn⟩
      · exact ⟨n, by rw [parseProgress, if_neg hc]; exact hn⟩

/-- Claim C6: in the consumer loop, a line received on the primary
(stdout) channel that contains a bracketed percentage marker
(`[ NN%]`-style, the pattern of line 719) leads to a parsed-progress
event being published whose progress value is exactly the integer
parsed from that marker (alongside the terminal-echo event); a stdout
line containing no such marker publishes no parsed-progress event. -/
theorem c6_stdout_progress_event (st : LoopState) (line : String) :
    (∀ p, parseProgress line.data = some p →
      (processItem st SName.stdout (some line)).events =
        st.events ++ [Ev.terminalOutput line, Ev.progressParsed p line] ∧
      HasMarkerVal line.data p) ∧
    (parseProgress line.data = none →
      (processItem st SName.stdout (some line)).events =
        st.events ++ [Ev.terminalOutput line] ∧
      ¬ HasMarker line.data) ∧
    (HasMarker line.data → ∃ p, parseProgress line.data = some p) := by
  refine ⟨?_, ?_, parseProgress_complete line.data⟩
  · intro p hp
    constructor
    · simp [processItem, hp]
    · exact parseProgress_sound line.data p hp
  · intro h0
    constructor
    · simp [processItem, h0]
    · intro hm
      obtain ⟨n, hn⟩ := parseProgress_complete line.data hm
      rw [h0] at hn
      exact Option.noConfusion hn

/-- Witness for C6 on the concrete recognizer line `[ 42%]`. -/
theorem c6_witness :
    parseProgress "[ 42%]".data = some 42 ∧
    (processItem initLoopState SName.stdout (some "[ 42%]")).events =
      [Ev.terminalOutput "[ 42%]", Ev.progressParsed 42 "[ 42%]"] := by
  have hp : parseProgress "[ 42%]".data = some 42 := by decide
  refine ⟨hp, ?_⟩
  have h := ((c6_stdout_progress_event initLoopState "[ 42%]").1 42 hp).1
  simpa [initLoopState] using h

/-- Claim C5: the two-call cancellation scenario.  A first call while a
child process is alive sets the cancellation flag, terminates the
process (escalating to `kill` exactly when the bounded graceful wait
expires), publishes the cancellation event and returns `True`; a second
call — the process slot now cleared — performs no process operation,
publishes nothing, and returns the (still set) cancellation-requested
flag; the same holds for a call that finds a process that has already
exited. -/
theorem c5_cancel_two_calls (st : CancelSt) (p : ProcHandle) (exits1 exits2 : Bool)
    (hp : st.proc = some p) (hrun : p.running = true) :
    (cancelCurrentTranscription st exits1).1 = true ∧
    (cancelCurrentTranscription st exits1).2.2.1 = [Ev.transcriptionCancelled] ∧
    (cancelCurrentTranscription st exits1).2.2.2 =
      [ProcOp.terminate] ++ (if exits1 then [] else [ProcOp.kill]) ∧
    (cancelCurrentTranscription st exits1).2.1 =
      { proc := none, cancelRequested := true } ∧
    (cancelCurrentTranscription (cancelCurrentTranscription st exits1).2.1 exits2).1 =
      (cancelCurrentTranscription st exits1).2.1.cancelRequested ∧
    (cancelCurrentTranscription (cancelCurrentTranscription st exits1).2.1 exits2).1 = true ∧
    (cancelCurrentTranscription (cancelCurrentTranscription st exits1).2.1 exits2).2.2.1 = [] ∧
    (cancelCurrentTranscription (cancelCurrentTranscription st exits1).2.1 exits2).2.2.2 = [] ∧
    (∀ st2 : CancelSt, ∀ q : ProcHandle, st2.proc = some q → q.running = false →
      (cancelCurrentTranscription st2 exits2).1 = true ∧
      (cancelCurrentTranscription st2 exits2).2.2.1 = [] ∧
      (cancelCurrentTranscription st2 exits2).2.2.2 = []) := by
  refine ⟨?_, ?_, ?_, ?_, ?_, ?_, ?_, ?_, ?_⟩
  · simp [cancelCurrentTranscription, hp, hrun]
  · simp [cancelCurrentTranscription, hp, hrun]
  · simp [cancelCurrentTranscription, hp, hrun]
  · simp [cancelCurrentTranscription, hp, hrun]
  · simp [cancelCurrentTranscription, hp, hrun]
  · simp [cancelCurrentTranscription, hp, hrun]
  · simp [cancelCurrentTranscription, hp, hrun]
  · simp [cancelCurrentTranscription, hp, hrun]
  · intro st2 q hq hnr
    refine ⟨?_, ?_, ?_⟩ <;> simp [cancelCurrentTranscription, hq, hnr]

/-- Witness for C5 with a concrete running process. -/
theorem c5_witness :
    (cancelCurrentTranscription ⟨some ⟨7, true⟩, false⟩ true).1 = true ∧
    (cancelCurrentTranscription
      (cancelCurrentTranscription ⟨some ⟨7, true⟩, false⟩ true).2.1 true).2.2.2 = [] := by
  obtain ⟨h1, _, _, _, _, _, _, h8, _⟩ :=
    c5_cancel_two_calls ⟨some ⟨7, true⟩, false⟩ ⟨7, true⟩ true true rfl rfl
  exact ⟨h1, h8⟩

/-- Folding per-socket discards over a snapshot is the same as one
filter: an element survives unless it occurs in the snapshot and fails
the send predicate. -/
theorem foldl_discard_eq_filter (p : WSock → Bool) :
    ∀ (xs init : List WSock),
      xs.foldl (fun live ws => if p ws then live else live.filter (· ≠ ws)) init =
        init.filter (fun w => !(decide (w ∈ xs) && !p w)) := by
  intro xs
  induction xs with
  | nil =>
    intro init
    simp
  | cons x xs ih =>
    intro init
    rw [List.foldl_cons, ih]
    by_cases hx : p x
    · simp only [hx, if_true]
      apply List.filter_congr
      intro a ha
      by_cases hax : a = x
      · subst hax
        simp [hx]
      · simp [hax]
    · have hx2 : p x = false := by
        cases hpx : p x
        · rfl
        · exact absurd hpx hx
      rw [if_neg (by simp [hx2])]
      rw [List.filter_filter]
      apply List.filter_congr
      intro a ha
      by_cases hax : a = x
      · subst hax
        simp [hx2]
      · simp [hax]

/-- Claim C8: delivering a progress event attempts a send to every
socket in the snapshot of the registration set; a send failure removes
exactly the failing sockets from the registration set and every
succeeding socket stays registered.  The handler is a total function
(every send failure is consumed by the per-socket handler), so nothing
propagates to the publisher. -/
theorem c8_observer_removal (regs : List WSock) (sendOk : WSock → Bool) :
    (progressEventHandler regs sendOk).1 = regs ∧
    (progressEventHandler regs sendOk).2 = regs.filter sendOk ∧
    (∀ w ∈ regs, sendOk w = true → w ∈ (progressEventHandler regs sendOk).2) ∧
    (∀ w, sendOk w = false → w ∉ (progressEventHandler regs sendOk).2) := by
  have hmain : (progressEventHandler regs sendOk).2 = regs.filter sendOk := by
    show regs.foldl (fun live ws => if sendOk ws then live else live.filter (· ≠ ws)) regs =
      regs.filter sendOk
    rw [foldl_discard_eq_filter]
    apply List.filter_congr
    intro a ha
    simp [ha]
  refine ⟨rfl, hmain, ?_, ?_⟩
  · intro w hw hok
    rw [hmain]
    exact List.mem_filter.mpr ⟨hw, hok⟩
  · intro w hbad hmem
    rw [hmain] at hmem
    have := (List.mem_filter.mp hmem).2
    rw [hbad] at this
    exact Bool.noConfusion this

/-- Assigning a key makes lookup of that key return the new value. -/
theorem dictGet_dictSet_self : ∀ (d : PyDict) (k : String) (v : PyVal),
    dictGet (dictSet d k v) k = some v := by
  intro d k v
  induction d with
  | nil => simp [dictSet, dictGet]
  | cons kv rest ih =>
    obtain ⟨k2, v2⟩ := kv
    by_cases h : k2 = k <;> simp [dictSet, dictGet, h, ih]

/-- Assigning a key leaves lookups of other keys unchanged. -/
theorem dictGet_dictSet_ne : ∀ (d : PyDict) (k1 k2 : String) (v : PyVal), k1 ≠ k2 →
    dictGet (dictSet d k2 v) k1 = dictGet d k1 := by
  intro d k1 k2 v hne
  have hne2 : ¬(k2 = k1) := fun hcontra => hne hcontra.symm
  induction d with
  | nil => simp [dictSet, dictGet, hne2]
  | cons kv rest ih =>
    obtain ⟨k3, v3⟩ := kv
    by_cases hx : k3 = k2
    · subst hx
      simp [dictSet, dictGet, hne2]
    · simp [dictSet, dictGet, hx, ih]

/-- One copy-and-disable pair (lines 1103-1104): the shallow copy is a
fresh object still referencing the shared `"chunking"` dict, and the
nested assignment turns `enabled` off in that shared dict, visible
through the original `config` as well; all other objects are
untouched. -/
theorem disableChunking_spec (h : Heap) (config a : Addr)
    (hck : dictGet (h.data config) "chunking" = some (PyVal.vRef a))
    (hfc : config < h.next) (hfa : a < h.next) :
    ∃ h1, disableChunkingForChunk h config = .ok (h.next, h1) ∧
      h1.next = h.next + 1 ∧
      dictGet (h1.data config) "chunking" = some (PyVal.vRef a) ∧
      dictGet (h1.data h.next) "chunking" = some (PyVal.vRef a) ∧
      dictGet (h1.data a) "enabled" = some (PyVal.vBool false) ∧
      (∀ x, x ≠ a → x ≠ h.next → h1.data x = h.data x) := by
  have hcnf : ¬(config = h.next) := Nat.ne_of_lt hfc
  have hanf : ¬(a = h.next) := Nat.ne_of_lt hfa
  have hd1 : ∀ x, ((heapCopy h config).2).data x =
      if x = h.next then h.data config else h.data x := by
    intro x
    simp [heapCopy]
  have hsc : dictGet (((heapCopy h config).2).data ((heapCopy h config).1)) "chunking" =
      some (PyVal.vRef a) := by
    rw [show (heapCopy h config).1 = h.next from rfl, hd1]
    simp [hck]
  refine ⟨heapSet (heapCopy h config).2 a
      (dictSet (((heapCopy h config).2).data a) "enabled" (PyVal.vBool false)),
    ?_, ?_, ?_, ?_, ?_, ?_⟩
  · simp only [disableChunkingForChunk, hsc]
    rfl
  · simp [heapSet, heapCopy]
  · by_cases hca : config = a
    · rw [show (heapSet (heapCopy h config).2 a
          (dictSet (((heapCopy h config).2).data a) "enabled" (PyVal.vBool false))).data config =
          dictSet (((heapCopy h config).2).data a) "enabled" (PyVal.vBool false) by
        simp [heapSet, hca]]
      rw [dictGet_dictSet_ne _ _ _ _ (by decide)]
      rw [hd1]
      simp [hanf, ← hca, hck]
    · rw [show (heapSet (heapCopy h config).2 a
          (dictSet (((heapCopy h config).2).data a) "enabled" (PyVal.vBool false))).data config =
          ((heapCopy h config).2).data config by simp [heapSet, hca]]
      rw [hd1]
      simp [hcnf, hck]
  · rw [show (heapSet (heapCopy h config).2 a
        (dictSet (((heapCopy h config).2).data a) "enabled" (PyVal.vBool false))).data h.next =
        ((heapCopy h config).2).data h.next by
      have hna : h.next ≠ a := Ne.symm hanf
      simp [heapSet, hna]]
    rw [hd1]
    simp [hck]
  · rw [show (heapSet (heapCopy h config).2 a
        (dictSet (((heapCopy h config).2).data a) "enabled" (PyVal.vBool false))).data a =
        dictSet (((heapCopy h config).2).data a) "enabled" (PyVal.vBool false) by
      simp [heapSet]]
    exact dictGet_dictSet_self _ _ _
  · intro x hxa hxn
    rw [show (heapSet (heapCopy h config).2 a
        (dictSet (((heapCopy h config).2).data a) "enabled" (PyVal.vBool false))).data x =
        ((heapCopy h config).2).data x by simp [heapSet, hxa]]
    rw [hd1]
    simp [hxn]

/-- Iterating the copy-and-disable pair once per dispatched chunk keeps
the caller's `config["chunking"]["enabled"]` at `False`. -/
theorem chunkLoopHeap_spec (config a : Addr) :
    ∀ (n : Nat) (h : Heap),
      dictGet (h.data config) "chunking" = some (PyVal.vRef a) →
      config < h.next → a < h.next →
      ∃ h2, chunkLoopHeap h config (n + 1) = .ok h2 ∧
        dictGet (h2.data config) "chunking" = some (PyVal.vRef a) ∧
        dictGet (h2.data a) "enabled" = some (PyVal.vBool false) := by
  intro n
  induction n with
  | zero =>
    intro h hck hfc hfa
    obtain ⟨h1, hok, hnext, hcfg, hcc, hen, hfr⟩ := disableChunking_spec h config a hck hfc hfa
    exact ⟨h1, by simp [chunkLoopHeap, hok], hcfg, hen⟩
  | succ n ih =>
    intro h hck hfc hfa
    obtain ⟨h1, hok, hnext, hcfg, hcc, hen, hfr⟩ := disableChunking_spec h config a hck hfc hfa
    obtain ⟨h2, hok2, hcfg2, hen2⟩ := ih h1 hcfg
      (by rw [hnext]; exact Nat.lt_succ_of_lt hfc)
      (by rw [hnext]; exact Nat.lt_succ_of_lt hfa)
    refine ⟨h2, ?_, hcfg2, hen2⟩
    rw [show n + 1 + 1 = (n + 1) + 1 from rfl]
    simp [chunkLoopHeap, hok]
    exact hok2

/-- Claim C10: `transcribe_audio_chunked` copies the config with a
shallow `dict.copy()` and then sets
`chunk_config["chunking"]["enabled"] = False` on the shared nested
`"chunking"` dict, so after the first chunk is dispatched the caller's
original `config` object also has chunking disabled, the copy and the
original alias the same nested dict, and the change persists over the
whole chunk loop (no later statement writes to that dict). -/
theorem c10_chunk_config_mutation (h : Heap) (config a : Addr)
    (hck : dictGet (h.data config) "chunking" = some (PyVal.vRef a))
    (hfc : config < h.next) (hfa : a < h.next) :
    (∃ h1, disableChunkingForChunk h config = .ok (h.next, h1) ∧
      h.next ≠ config ∧
      dictGet (h1.data h.next) "chunking" = some (PyVal.vRef a) ∧
      dictGet (h1.data config) "chunking" = some (PyVal.vRef a) ∧
      dictGet (h1.data a) "enabled" = some (PyVal.vBool false)) ∧
    (∀ n, 1 ≤ n → ∃ h2, chunkLoopHeap h config n = .ok h2 ∧
      dictGet (h2.data config) "chunking" = some (PyVal.vRef a) ∧
      dictGet (h2.data a) "enabled" = some (PyVal.vBool false)) := by
  constructor
  · obtain ⟨h1, hok, hnext, hcfg, hcc, hen, hfr⟩ := disableChunking_spec h config a hck hfc hfa
    exact ⟨h1, hok, Ne.symm (Nat.ne_of_lt hfc), hcc, hcfg, hen⟩
  · intro n hn
    obtain ⟨m, rfl⟩ : ∃ m, n = m + 1 := ⟨n - 1, by omega⟩
    exact chunkLoopHeap_spec config a m h hck hfc hfa

/-- Witness for C10 on a concrete two-object heap. -/
theorem c10_witness :
    ∃ h1, disableChunkingForChunk
        ⟨2, fun x => if x = 0 then [("chunking", PyVal.vRef 1)]
             else if x = 1 then [("enabled", PyVal.vBool true)] else []⟩ 0 =
        .ok (2, h1) ∧
      dictGet (h1.data 0) "chunking" = some (PyVal.vRef 1) ∧
      dictGet (h1.data 1) "enabled" = some (PyVal.vBool false) := by
  obtain ⟨⟨h1, hok, _, _, hcfg, hen⟩, _⟩ :=
    c10_chunk_config_mutation
      ⟨2, fun x => if x = 0 then [("chunking", PyVal.vRef 1)]
           else if x = 1 then [("enabled", PyVal.vBool true)] else []⟩ 0 1
      (by simp [dictGet]) (by decide) (by decide)
  exact ⟨h1, hok, hcfg, hen⟩

/-- Closed form of the chunk loop when every per-chunk call returns a
result (no exception): the loop never aborts, accumulates exactly the
surviving transcriptions and shifted segments, and publishes the
per-chunk events. -/
theorem chunkLoop_char (env : ChunkedEnv) (total : Nat) (f : Nat → TranscriptionResult)
    (hrc : ∀ i c, env.runChunk i c = .ok (f i)) :
    ∀ (chunks : List ChunkInfo) (i : Nat) (ts : List ChunkTrans) (sgs : List Seg)
      (evs : List Ev),
      chunkLoop env total (List.enumFrom i chunks) ts sgs evs =
        (.ok (ts ++ chunkTransOf f i chunks, sgs ++ chunkSegsOf f i chunks),
         evs ++ chunkEvsOf f total i chunks) := by
  intro chunks
  induction chunks with
  | nil =>
    intro i ts sgs evs
    simp [chunkLoop, chunkTransOf, chunkSegsOf, chunkEvsOf, List.enumFrom]
  | cons c r ih =>
    intro i ts sgs evs
    show chunkLoop env total ((i, c) :: List.enumFrom (i + 1) r) ts sgs evs = _
    by_cases hs : (f i).success
    · simp only [chunkLoop, hrc i c, hs, if_true, ih (i + 1),
        chunkTransOf, chunkSegsOf, chunkEvsOf]
      simp [hs, List.append_assoc]
    · simp only [chunkLoop, hrc i c, hs, if_false, ih (i + 1),
        chunkTransOf, chunkSegsOf, chunkEvsOf]
      simp [hs, List.append_assoc]

/-- A failed chunk's `CHUNK_FAILED` event is in the loop trace. -/
theorem chunkEvsOf_mem_failed (f : Nat → TranscriptionResult) (total : Nat) :
    ∀ (chunks : List ChunkInfo) (j i : Nat), i < chunks.length →
      (f (j + i)).success = false →
      Ev.chunkFailed (j + i + 1) (f (j + i)).error ∈ chunkEvsOf f total j chunks := by
  intro chunks
  induction chunks with
  | nil =>
    intro j i hi
    simp at hi
  | cons c r ih =>
    intro j i hi hf
    cases i with
    | zero =>
      simp only [Nat.add_zero] at hf ⊢
      simp [chunkEvsOf, hf]
    | succ i2 =>
      have hi2 : i2 < r.length := by simpa using hi
      have hmem := ih (j + 1) i2 hi2 (by rw [show j + 1 + i2 = j + (i2 + 1) by omega]; exact hf)
      rw [show j + 1 + i2 = j + (i2 + 1) by omega] at hmem
      simp only [chunkEvsOf]
      exact List.mem_append_right _ hmem

/-- Every chunk's `CHUNK_STARTED` event is in the loop trace. -/
theorem chunkEvsOf_mem_started (f : Nat → TranscriptionResult) (total : Nat) :
    ∀ (chunks : List ChunkInfo) (j i : Nat), i < chunks.length →
      Ev.chunkStarted (j + i + 1) total ∈ chunkEvsOf f total j chunks := by
  intro chunks
  induction chunks with
  | nil =>
    intro j i hi
    simp at hi
  | cons c r ih =>
    intro j i hi
    cases i with
    | zero =>
      simp [chunkEvsOf]
    | succ i2 =>
      have hi2 : i2 < r.length := by simpa using hi
      have hmem := ih (j + 1) i2 hi2
      rw [show j + 1 + i2 = j + (i2 + 1) by omega] at hmem
      simp only [chunkEvsOf]
      exact List.mem_append_right _ hmem

/-- Every surviving chunk transcription comes from a successful chunk. -/
theorem chunkTransOf_mem (f : Nat → TranscriptionResult) :
    ∀ (chunks : List ChunkInfo) (j : Nat) (t : ChunkTrans), t ∈ chunkTransOf f j chunks →
      ∃ i, i < chunks.length ∧ t.chunk = j + i + 1 ∧ (f (j + i)).success = true ∧
        t.text = (f (j + i)).text := by
  intro chunks
  induction chunks with
  | nil =>
    intro j t ht
    simp [chunkTransOf] at ht
  | cons c r ih =>
    intro j t ht
    simp only [chunkTransOf] at ht
    rcases List.mem_append.mp ht with h | h
    · by_cases hs : (f j).success
      · simp only [hs, if_true, List.mem_singleton] at h
        subst h
        exact ⟨0, by simp, by simp, by simpa using hs, by simp⟩
      · simp [hs] at h
    · obtain ⟨i, hi, hchunk, hsucc, htext⟩ := ih (j + 1) t h
      refine ⟨i + 1, by simpa using Nat.succ_lt_succ hi, ?_, ?_, ?_⟩
      · rw [hchunk]; omega
      · rw [show j + (i + 1) = j + 1 + i by omega]; exact hsucc
      · rw [show j + (i + 1) = j + 1 + i by omega]; exact htext

/-- Claim C1: in a chunked job where no exception is raised, an
unsuccessful single-shot result for one chunk is recorded as a
`CHUNK_FAILED` event for that chunk and excluded from the surviving
transcriptions, the loop continues with the remaining chunks (every
chunk still gets its `CHUNK_STARTED` event), and the job returns
`success = true` with the merge of the surviving chunks' texts. -/
theorem c1_chunk_failure_tolerance
    (args : TAArgs) (cfg : Config) (env : ChunkedEnv)
    (fmt : OutputFormat) (mdl : WhisperModel) (dur : ℚ) (chunks : List ChunkInfo)
    (f : Nat → TranscriptionResult) (m : List ChunkTrans → String) (opath : String)
    (hfmt : parseFormatArg args.outputFormat = .ok fmt)
    (hmdl : parseModelArg args.modelArg = .ok mdl)
    (hdur : env.duration = .ok dur) (hsplit : env.split = .ok chunks)
    (hrc : ∀ i c, env.runChunk i c = .ok (f i))
    (hm : ∀ ts, env.mergeT ts = .ok (m ts))
    (hpath : resolveOutputPathChunked args cfg env = .ok opath)
    (hw : env.writeOutput = .ok ()) :
    (transcribeAudioChunked args cfg env).1 =
      PyRun.ret
        { success := true
          text := some (m (chunkTransOf f 0 chunks))
          outputFile := some opath
          segments := some (chunkSegsOf f 0 chunks)
          modelName := some mdl.value
          language := args.language } ∧
    (∀ i, i < chunks.length → (f i).success = false →
      Ev.chunkFailed (i + 1) (f i).error ∈ (transcribeAudioChunked args cfg env).2 ∧
      ∀ t ∈ chunkTransOf f 0 chunks, t.chunk ≠ i + 1) ∧
    (∀ i, i < chunks.length →
      Ev.chunkStarted (i + 1) chunks.length ∈ (transcribeAudioChunked args cfg env).2) := by
  have hloop := chunkLoop_char env chunks.length f hrc chunks 0 [] []
    ([Ev.progressStatus "transcription" "minutes", Ev.progressStatus "chunking" "start",
      Ev.chunkingStarted] ++
     [Ev.progressStatus "transcription" "chunks_created", Ev.progressStatus "chunking" "done"])
  simp only [List.nil_append] at hloop
  have hrun : transcribeAudioChunked args cfg env =
      (PyRun.ret
        { success := true
          text := some (m (chunkTransOf f 0 chunks))
          outputFile := some opath
          segments := some (chunkSegsOf f 0 chunks)
          modelName := some mdl.value
          language := args.language },
       ([Ev.progressStatus "transcription" "minutes", Ev.progressStatus "chunking" "start",
         Ev.chunkingStarted] ++
        [Ev.progressStatus "transcription" "chunks_created", Ev.progressStatus "chunking" "done"]) ++
        chunkEvsOf f chunks.length 0 chunks ++ [Ev.transcriptionCompleted]) := by
    simp only [transcribeAudioChunked, hfmt, hmdl, hdur, hsplit]
    rw [show chunks.enum = List.enumFrom 0 chunks from rfl]
    rw [hloop]
    simp only [hm, hpath, hw]
  refine ⟨?_, ?_, ?_⟩
  · rw [hrun]
  · intro i hi hf
    constructor
    · rw [hrun]
      have hmem := chunkEvsOf_mem_failed f chunks.length chunks 0 i hi (by simpa using hf)
      simp only [Nat.zero_add] at hmem
      exact List.mem_append_left _ (List.mem_append_right _ hmem)
    · intro t ht hchunk
      obtain ⟨i2, hi2, hchunk2, hsucc, _⟩ := chunkTransOf_mem f chunks 0 t ht
      simp only [Nat.zero_add] at hchunk2 hsucc
      rw [hchunk] at hchunk2
      have : i = i2 := by omega
      rw [this] at hf
      rw [hf] at hsucc
      exact Bool.noConfusion hsucc
  · intro i hi
    rw [hrun]
    have hmem := chunkEvsOf_mem_started f chunks.length chunks 0 i hi
    simp only [Nat.zero_add] at hmem
    exact List.mem_append_left _ (List.mem_append_right _ hmem)

/-- Witness for C1: the spec's 3-chunk scenario with chunk 2 failing. -/
theorem c1_witness :
    (transcribeAudioChunked wArgs wCfg wChunkedEnv).1 =
      PyRun.ret
        { success := true
          text := some "t1 t3"
          outputFile := some "out.json"
          segments := some [⟨"s", some 1, some 2⟩, ⟨"s", some 2401, some 2402⟩]
          modelName := some "large-v3-turbo"
          language := none } ∧
    Ev.chunkFailed 2 (some "boom") ∈ (transcribeAudioChunked wArgs wCfg wChunkedEnv).2 := by
  obtain ⟨h1, h2, h3⟩ := c1_chunk_failure_tolerance wArgs wCfg wChunkedEnv
    OutputFormat.json WhisperModel.largeV3Turbo 3600
    [wChunkInfo 0, wChunkInfo 1, wChunkInfo 2] wChunkResult wMerge "out.json"
    rfl rfl rfl rfl (fun i c => rfl) (fun ts => rfl) rfl rfl
  constructor
  · rw [h1]
    have htext : wMerge (chunkTransOf wChunkResult 0 [wChunkInfo 0, wChunkInfo 1, wChunkInfo 2]) =
        "t1 t3" := by
      simp only [wMerge, chunkTransOf, wChunkResult]
      rfl
    have hsegs : chunkSegsOf wChunkResult 0 [wChunkInfo 0, wChunkInfo 1, wChunkInfo 2] =
        [⟨"s", some 1, some 2⟩, ⟨"s", some 2401, some 2402⟩] := by
      simp [chunkSegsOf, wChunkResult, adjustSegment, wChunkInfo]
      norm_num
    rw [htext, hsegs]
    rfl
  · have := (h2 1 (by decide) rfl).1
    exact this

/-- Claim C2: for every chunked job whose per-chunk calls return
results, the returned segments list is exactly the concatenation, in
chunk order, over the successful chunks, of that chunk's segments
shifted by its `start_time` (`chunkSegsOf`), and the shift produces a
new value whose `start`/`end` are increased by exactly the chunk's
`start_time` (missing keys defaulting to 0, as `segment.get(k, 0)`
does) with the text unchanged. -/
theorem c2_segment_time_shift
    (args : TAArgs) (cfg : Config) (env : ChunkedEnv)
    (fmt : OutputFormat) (mdl : WhisperModel) (dur : ℚ) (chunks : List ChunkInfo)
    (f : Nat → TranscriptionResult) (m : List ChunkTrans → String) (opath : String)
    (hfmt : parseFormatArg args.outputFormat = .ok fmt)
    (hmdl : parseModelArg args.modelArg = .ok mdl)
    (hdur : env.duration = .ok dur) (hsplit : env.split = .ok chunks)
    (hrc : ∀ i c, env.runChunk i c = .ok (f i))
    (hm : ∀ ts, env.mergeT ts = .ok (m ts))
    (hpath : resolveOutputPathChunked args cfg env = .ok opath)
    (hw : env.writeOutput = .ok ()) :
    (∃ res, (transcribeAudioChunked args cfg env).1 = PyRun.ret res ∧
      res.segments = some (chunkSegsOf f 0 chunks)) ∧
    (∀ (cst : ℚ) (s : Seg),
      (adjustSegment cst s).startT = some (s.startT.getD 0 + cst) ∧
      (adjustSegment cst s).endT = some (s.endT.getD 0 + cst) ∧
      (adjustSegment cst s).text = s.text) := by
  have hloop := chunkLoop_char env chunks.length f hrc chunks 0 [] []
    ([Ev.progressStatus "transcription" "minutes", Ev.progressStatus "chunking" "start",
      Ev.chunkingStarted] ++
     [Ev.progressStatus "transcription" "chunks_created", Ev.progressStatus "chunking" "done"])
  simp only [List.nil_append] at hloop
  constructor
  · have hrun : transcribeAudioChunked args cfg env =
        (PyRun.ret
          { success := true
            text := some (m (chunkTransOf f 0 chunks))
            outputFile := some opath
            segments := some (chunkSegsOf f 0 chunks)
            modelName := some mdl.value
            language := args.language },
         ([Ev.progressStatus "transcription" "minutes", Ev.progressStatus "chunking" "start",
           Ev.chunkingStarted] ++
          [Ev.progressStatus "transcription" "chunks_created",
           Ev.progressStatus "chunking" "done"]) ++
          chunkEvsOf f chunks.length 0 chunks ++ [Ev.transcriptionCompleted]) := by
      simp only [transcribeAudioChunked, hfmt, hmdl, hdur, hsplit]
      rw [show chunks.enum = List.enumFrom 0 chunks from rfl]
      rw [hloop]
      simp only [hm, hpath, hw]
    exact ⟨{ success := true
             text := some (m (chunkTransOf f 0 chunks))
             outputFile := some opath
             segments := some (chunkSegsOf f 0 chunks)
             modelName := some mdl.value
             language := args.language },
           by rw [hrun], rfl⟩
  · intro cst s
    exact ⟨rfl, rfl, rfl⟩

/-- Witness for C2: the shifted segments of the 3-chunk scenario. -/
theorem c2_witness :
    (∃ res, (transcribeAudioChunked wArgs wCfg wChunkedEnv).1 = PyRun.ret res ∧
      res.segments =
        some [⟨"s", some 1, some 2⟩, ⟨"s", some 2401, some 2402⟩]) ∧
    (adjustSegment 2400 ⟨"s", some 1, some 2⟩).startT = some 2401 := by
  obtain ⟨⟨res, hres, hsegs⟩, hsh⟩ := c2_segment_time_shift wArgs wCfg wChunkedEnv
    OutputFormat.json WhisperModel.largeV3Turbo 3600
    [wChunkInfo 0, wChunkInfo 1, wChunkInfo 2] wChunkResult wMerge "out.json"
    rfl rfl rfl rfl (fun i c => rfl) (fun ts => rfl) rfl rfl
  refine ⟨⟨res, hres, ?_⟩, ?_⟩
  · rw [hsegs]
    have : chunkSegsOf wChunkResult 0 [wChunkInfo 0, wChunkInfo 1, wChunkInfo 2] =
        [⟨"s", some 1, some 2⟩, ⟨"s", some 2401, some 2402⟩] := by
      simp [chunkSegsOf, wChunkResult, adjustSegment, wChunkInfo]
      norm_num
    rw [this]
  · have := (hsh 2400 ⟨"s", some 1, some 2⟩).1
    rw [this]
    norm_num

/-- Shape of every terminating single-shot run: provided the pre-`try`
output-path resolution succeeds, the run either diverges or returns a
well-formed result, and never lets an exception escape. -/
theorem transcribeAudioSingle_shape (args : TAArgs) (cfg : Config) (fmt : OutputFormat)
    (mdl : WhisperModel) (env : SingleEnv) (opath : String)
    (hpre : resolveOutputPathSingle args cfg env = .ok opath) :
    (∀ res, (transcribeAudioSingle args cfg fmt mdl env).1 = PyRun.ret res →
      (res.success = true ∧ res.text.isSome ∧ res.outputFile.isSome) ∨
      (res.success = false ∧ res.error.isSome)) ∧
    (∀ e, (transcribeAudioSingle args cfg fmt mdl env).1 ≠ PyRun.raised e) := by
  simp only [transcribeAudioSingle, hpre]
  rcases hsp : env.setupPre with e | u
  · simp only [hsp, singleExcept]
    constructor
    · intro res hres
      injection hres with hres
      rw [← hres]
      exact Or.inr ⟨rfl, rfl⟩
    · intro e2 hcontra
      exact PyRun.noConfusion hcontra
  · simp only [hsp]
    rcases hspawn : env.spawn with e | u2
    · simp only [hspawn, singleExcept]
      constructor
      · intro res hres
        injection hres with hres
        rw [← hres]
        exact Or.inr ⟨rfl, rfl⟩
      · intro e2 hcontra
        exact PyRun.noConfusion hcontra
    · simp only [hspawn]
      rcases hloop : consumerLoop 3600 env.gracefulOk initLoopState env.ticks with ⟨st, ex⟩
      cases ex with
      | timeoutFailure t at_ ops =>
        simp only [hloop, singleExcept]
        constructor
        · intro res hres
          injection hres with hres
          rw [← hres]
          exact Or.inr ⟨rfl, rfl⟩
        · intro e2 hcontra
          exact PyRun.noConfusion hcontra
      | starved =>
        simp only [hloop]
        constructor
        · intro res hres
          exact absurd hres (by simp)
        · intro e2 hcontra
          exact PyRun.noConfusion hcontra
      | exitNormal t =>
        simp only [hloop]
        by_cases hrc : env.returncode = 0
        · simp only [hrc, if_pos rfl]
          by_cases htxt : env.txtExists
          · simp only [htxt, if_true]
            rcases hwo : env.writeOut with e | u3
            · simp only [hwo, singleExcept]
              constructor
              · intro res hres
                injection hres with hres
                rw [← hres]
                exact Or.inr ⟨rfl, rfl⟩
              · intro e2 hcontra
                exact PyRun.noConfusion hcontra
            · simp only [hwo]
              constructor
              · intro res hres
                injection hres with hres
                rw [← hres]
                exact Or.inl ⟨rfl, rfl, rfl⟩
              · intro e2 hcontra
                exact PyRun.noConfusion hcontra
          · simp only [htxt, if_false]
            constructor
            · intro res hres
              injection hres with hres
              rw [← hres]
              exact Or.inr ⟨rfl, rfl⟩
            · intro e2 hcontra
              exact PyRun.noConfusion hcontra
        · simp only [if_neg hrc]
          constructor
          · intro res hres
            injection hres with hres
            rw [← hres]
            exact Or.inr ⟨rfl, rfl⟩
          · intro e2 hcontra
            exact PyRun.noConfusion hcontra
      | exitBroke t =>
        simp only [hloop]
        by_cases hrc : env.returncode = 0
        · simp only [hrc, if_pos rfl]
          by_cases htxt : env.txtExists
          · simp only [htxt, if_true]
            rcases hwo : env.writeOut with e | u3
            · simp only [hwo, singleExcept]
              constructor
              · intro res hres
                injection hres with hres
                rw [← hres]
                exact Or.inr ⟨rfl, rfl⟩
              · intro e2 hcontra
                exact PyRun.noConfusion hcontra
            · simp only [hwo]
              constructor
              · intro res hres
                injection hres with hres
                rw [← hres]
                exact Or.inl ⟨rfl, rfl, rfl⟩
              · intro e2 hcontra
                exact PyRun.noConfusion hcontra
          · simp only [htxt, if_false]
            constructor
            · intro res hres
              injection hres with hres
              rw [← hres]
              exact Or.inr ⟨rfl, rfl⟩
            · intro e2 hcontra
              exact PyRun.noConfusion hcontra
        · simp only [if_neg hrc]
          constructor
          · intro res hres
            injection hres with hres
            rw [← hres]
            exact Or.inr ⟨rfl, rfl⟩
          · intro e2 hcontra
            exact PyRun.noConfusion hcontra

/-- Shape of every chunked run whose enum conversions succeed: the
`try`/`except` converts every internal failure into a failed result,
and no exception escapes. -/
theorem transcribeAudioChunked_shape (args : TAArgs) (cfg : Config) (env : ChunkedEnv)
    (fmt : OutputFormat) (mdl : WhisperModel)
    (hfmt : parseFormatArg args.outputFormat = .ok fmt)
    (hmdl : parseModelArg args.modelArg = .ok mdl) :
    (∀ res, (transcribeAudioChunked args cfg env).1 = PyRun.ret res →
      (res.success = true ∧ res.text.isSome ∧ res.outputFile.isSome) ∨
      (res.success = false ∧ res.error.isSome)) ∧
    (∀ e, (transcribeAudioChunked args cfg env).1 ≠ PyRun.raised e) := by
  simp only [transcribeAudioChunked, hfmt, hmdl]
  rcases hdur : env.duration with e | dur
  · simp only [hdur, chunkedExcept]
    exact ⟨fun res hres => by
        injection hres with hres
        rw [← hres]
        exact Or.inr ⟨rfl, rfl⟩,
      fun e2 hcontra => PyRun.noConfusion hcontra⟩
  · simp only [hdur]
    rcases hsplit : env.split with e | chunks
    · simp only [hsplit, chunkedExcept]
      exact ⟨fun res hres => by
          injection hres with hres
          rw [← hres]
          exact Or.inr ⟨rfl, rfl⟩,
        fun e2 hcontra => PyRun.noConfusion hcontra⟩
    · simp only [hsplit]
      rcases hloop : chunkLoop env chunks.length chunks.enum [] []
          ([Ev.progressStatus "transcription" "minutes", Ev.progressStatus "chunking" "start",
            Ev.chunkingStarted] ++
           [Ev.progressStatus "transcription" "chunks_created",
            Ev.progressStatus "chunking" "done"]) with ⟨exc, evs⟩
      cases exc with
      | error e =>
        simp only [hloop, chunkedExcept]
        exact ⟨fun res hres => by
            injection hres with hres
            rw [← hres]
            exact Or.inr ⟨rfl, rfl⟩,
          fun e2 hcontra => PyRun.noConfusion hcontra⟩
      | ok tssgs =>
        obtain ⟨ts, sgs⟩ := tssgs
        simp only [hloop]
        rcases hm : env.mergeT ts with e | merged
        · simp only [hm, chunkedExcept]
          exact ⟨fun res hres => by
              injection hres with hres
              rw [← hres]
              exact Or.inr ⟨rfl, rfl⟩,
            fun e2 hcontra => PyRun.noConfusion hcontra⟩
        · simp only [hm]
          rcases hp : resolveOutputPathChunked args cfg env with e | opath
          · simp only [hp, chunkedExcept]
            exact ⟨fun res hres => by
                injection hres with hres
                rw [← hres]
                exact Or.inr ⟨rfl, rfl⟩,
              fun e2 hcontra => PyRun.noConfusion hcontra⟩
          · simp only [hp]
            rcases hw : env.writeOutput with e | u
            · simp only [hw, chunkedExcept]
              exact ⟨fun res hres => by
                  injection hres with hres
                  rw [← hres]
                  exact Or.inr ⟨rfl, rfl⟩,
                fun e2 hcontra => PyRun.noConfusion hcontra⟩
            · simp only [hw]
              exact ⟨fun res hres => by
                  injection hres with hres
                  rw [← hres]
                  exact Or.inl ⟨rfl, rfl, rfl⟩,
                fun e2 hcontra => PyRun.noConfusion hcontra⟩

/-- Claim C7 (amended): provided the `output_format` / `model`
arguments convert successfully and — for the single-shot path, whose
output-path resolution runs before the `try` block — that resolution
succeeds, every invocation of `transcribe_audio` and of
`transcribe_audio_chunked` that returns yields either `success = true`
with text and output file, or `success = false` with an error string;
no exception escapes to the caller, and a missing source file yields a
failed result rather than an exception. -/
theorem c7_amended_result_shape
    (args : TAArgs) (cfg : Config) (envT : TopEnv) (envC : ChunkedEnv)
    (fmt : OutputFormat) (mdl : WhisperModel) (opath : String)
    (hfmt : parseFormatArg args.outputFormat = .ok fmt)
    (hmdl : parseModelArg args.modelArg = .ok mdl)
    (hpre : resolveOutputPathSingle args cfg envT.singleEnv = .ok opath) :
    (∀ res, (transcribeAudio args cfg envT).1 = PyRun.ret res →
      (res.success = true ∧ res.text.isSome ∧ res.outputFile.isSome) ∨
      (res.success = false ∧ res.error.isSome)) ∧
    (∀ e, (transcribeAudio args cfg envT).1 ≠ PyRun.raised e) ∧
    (envT.fileExists = false → (transcribeAudio args cfg envT).1 =
      PyRun.ret { success := false,
                  error := some ("Audio file not found: " ++ args.audioPath) }) ∧
    (∀ res, (transcribeAudioChunked args cfg envC).1 = PyRun.ret res →
      (res.success = true ∧ res.text.isSome ∧ res.outputFile.isSome) ∨
      (res.success = false ∧ res.error.isSome)) ∧
    (∀ e, (transcribeAudioChunked args cfg envC).1 ≠ PyRun.raised e) := by
  have hch := transcribeAudioChunked_shape args cfg envC fmt mdl hfmt hmdl
  have hval : transcribeAudio args cfg envT = transcribeAudioValidated args cfg envT fmt mdl := by
    simp only [transcribeAudio, hfmt, hmdl]
  by_cases hfe : envT.fileExists = true
  · have hmain :
        (∀ res, (transcribeAudioValidated args cfg envT fmt mdl).1 = PyRun.ret res →
          (res.success = true ∧ res.text.isSome ∧ res.outputFile.isSome) ∨
          (res.success = false ∧ res.error.isSome)) ∧
        (∀ e, (transcribeAudioValidated args cfg envT fmt mdl).1 ≠ PyRun.raised e) := by
      simp only [transcribeAudioValidated, hfe, Bool.not_true, Bool.false_eq_true, if_false]
      by_cases hop : isOpusPath args.audioPath = true
      · rcases hopus : envT.opus with p | err
        · simp only [opusStep, hop, if_true, hopus]
          by_cases hcb : (cfg.chunkingEnabled && envT.chunkable) = true
          · simp only [hcb, if_true]
            exact transcribeAudioChunked_shape { args with audioPath := p } cfg
              envT.chunkedEnv fmt mdl hfmt hmdl
          · simp only [hcb, Bool.false_eq_true, if_false]
            exact transcribeAudioSingle_shape { args with audioPath := p } cfg fmt mdl
              envT.singleEnv opath hpre
        · simp only [opusStep, hop, if_true, hopus]
          constructor
          · intro res hres
            injection hres with hres
            rw [← hres]
            exact Or.inr ⟨rfl, rfl⟩
          · intro e2 hcontra
            exact PyRun.noConfusion hcontra
      · simp only [opusStep, hop, Bool.false_eq_true, if_false]
        by_cases hcb : (cfg.chunkingEnabled && envT.chunkable) = true
        · simp only [hcb, if_true]
          exact transcribeAudioChunked_shape { args with audioPath := args.audioPath } cfg
            envT.chunkedEnv fmt mdl hfmt hmdl
        · simp only [hcb, Bool.false_eq_true, if_false]
          exact transcribeAudioSingle_shape { args with audioPath := args.audioPath } cfg
            fmt mdl envT.singleEnv opath hpre
    rw [hval]
    exact ⟨hmain.1, hmain.2, fun hcontra => absurd hcontra (by simp [hfe]), hch.1, hch.2⟩
  · have hfe2 : envT.fileExists = false := by
      cases h : envT.fileExists
      · rfl
      · exact absurd h hfe
    have hret : (transcribeAudio args cfg envT).1 =
        PyRun.ret { success := false,
                    error := some ("Audio file not found: " ++ args.audioPath) } := by
      rw [hval]
      simp only [transcribeAudioValidated, hfe2, Bool.not_false, if_true]
    refine ⟨?_, ?_, fun _ => hret, hch.1, hch.2⟩
    · intro res hres
      rw [hret] at hres
      injection hres with hres
      rw [← hres]
      exact Or.inr ⟨rfl, rfl⟩
    · intro e2 hcontra
      rw [hret] at hcontra
      exact PyRun.noConfusion hcontra

/-- Counterexample to C7 as stated: an invalid `output_format` string
makes the enum conversion (which runs before the `try` block) raise
`ValueError` out of `transcribe_audio`, and — even with valid enums —
a configuration without `output.default_directory` makes the
single-shot path's pre-`try` output-path lookup raise `KeyError`; in
neither case is the exception converted to a failed result. -/
theorem c7_counterexample :
    (transcribeAudio
        { audioPath := "a.wav", outputFormat := Sum.inl "bogus",
          modelArg := Sum.inr WhisperModel.base } wCfg wTopEnv).1 =
      PyRun.raised (PyExn.valueError "bogus is not a valid OutputFormat") ∧
    (transcribeAudio
        { audioPath := "a.wav", outputFormat := Sum.inr OutputFormat.txt,
          modelArg := Sum.inr WhisperModel.base }
        { chunkingEnabled := false, outputDefaultDir := none } wTopEnv).1 =
      PyRun.raised (PyExn.keyError "output") := by
  constructor
  · rfl
  · rfl

/-- Witness for the amended C7 at a fully successful concrete run. -/
theorem c7_witness :
    (wGoodRes.success = true ∧ wGoodRes.text.isSome ∧ wGoodRes.outputFile.isSome) ∨
    (wGoodRes.success = false ∧ wGoodRes.error.isSome) :=
  (c7_amended_result_shape wArgs wCfg wTopEnv wChunkedEnv OutputFormat.json
    WhisperModel.largeV3Turbo "out.json" rfl rfl rfl).1 wGoodRes (by rfl)

/-- Witness for C8: three sockets, the middle one failing. -/
theorem c8_witness :
    (progressEventHandler [1, 2, 3] (fun w => decide (w ≠ 2))).1 = [1, 2, 3] ∧
    (progressEventHandler [1, 2, 3] (fun w => decide (w ≠ 2))).2 = [1, 3] := by
  obtain ⟨h1, h2, _, _⟩ := c8_observer_removal [1, 2, 3] (fun w => decide (w ≠ 2))
  refine ⟨h1, ?_⟩
  rw [h2]
  decide

/-- Exit-case analysis of the consumer loop, for any start state: a
timeout exit fires only on a tick whose elapsed time exceeds the budget
while the `while` condition still holds, and performs terminate, then
kill exactly when the graceful wait fails, then cleanup; a normal exit
happens only with both streams done and the queue observed empty; a
`break` exit happens only in the `queue.Empty` branch with the process
exited and both reader threads finished. -/
theorem consumerLoop_cases (budget : ℚ) (gOk : Bool) :
    ∀ (ticks : List Tick) (st : LoopState),
      (∀ t stAt ops, (consumerLoop budget gOk st ticks).2 = .timeoutFailure t stAt ops →
        t ∈ ticks ∧ budget < t.elapsed ∧
        ¬(stAt.doneOut = true ∧ stAt.doneErr = true ∧ t.queueIsEmpty = true) ∧
        ops = [ProcOp.terminate] ++ (if gOk then [] else [ProcOp.kill]) ++
          [ProcOp.cleanupTemp]) ∧
      (∀ t, (consumerLoop budget gOk st ticks).2 = .exitNormal t →
        (consumerLoop budget gOk st ticks).1.doneOut = true ∧
        (consumerLoop budget gOk st ticks).1.doneErr = true ∧
        t.queueIsEmpty = true) ∧
      (∀ t, (consumerLoop budget gOk st ticks).2 = .exitBroke t →
        t.get = QueueGet.empty true false false) := by
  intro ticks
  induction ticks with
  | nil =>
    intro st
    refine ⟨?_, ?_, ?_⟩ <;> intro t
    · intro stAt ops h
      exact absurd h (by simp [consumerLoop])
    · intro h
      exact absurd h (by simp [consumerLoop])
    · intro h
      exact absurd h (by simp [consumerLoop])
  | cons t0 ts ih =>
    intro st
    by_cases hcond : (st.doneOut && st.doneErr && t0.queueIsEmpty) = true
    · have hstep : consumerLoop budget gOk st (t0 :: ts) = (st, .exitNormal t0) := by
        simp [consumerLoop, hcond]
      refine ⟨?_, ?_, ?_⟩
      · intro t stAt ops h
        rw [hstep] at h
        exact absurd h (by simp)
      · intro t h
        rw [hstep] at h
        injection h with h
        subst h
        rw [hstep]
        simp only [Bool.and_eq_true] at hcond
        exact ⟨hcond.1.1, hcond.1.2, hcond.2⟩
      · intro t h
        rw [hstep] at h
        exact absurd h (by simp)
    · by_cases htime : budget < t0.elapsed
      · have hstep : consumerLoop budget gOk st (t0 :: ts) =
            (st, .timeoutFailure t0 st
              ([ProcOp.terminate] ++ (if gOk then [] else [ProcOp.kill]) ++
               [ProcOp.cleanupTemp])) := by
          simp [consumerLoop, hcond, htime]
        refine ⟨?_, ?_, ?_⟩
        · intro t stAt ops h
          rw [hstep] at h
          injection h with ht hst hops
          subst ht
          subst hst
          subst hops
          refine ⟨List.mem_cons_self .., htime, ?_, rfl⟩
          intro ⟨h1, h2, h3⟩
          exact hcond (by rw [h1, h2, h3]; rfl)
        · intro t h
          rw [hstep] at h
          exact absurd h (by simp)
        · intro t h
          rw [hstep] at h
          exact absurd h (by simp)
      · cases hg : t0.get with
        | item s l =>
          have hstep : consumerLoop budget gOk st (t0 :: ts) =
              consumerLoop budget gOk (processItem st s l) ts := by
            simp [consumerLoop, hcond, htime, hg]
          obtain ⟨ih1, ih2, ih3⟩ := ih (processItem st s l)
          refine ⟨?_, ?_, ?_⟩
          · intro t stAt ops h
            rw [hstep] at h
            obtain ⟨hmem, hrest⟩ := ih1 t stAt ops h
            exact ⟨List.mem_cons_of_mem _ hmem, hrest⟩
          · intro t h
            rw [hstep] at h
            rw [hstep]
            exact ih2 t h
          · intro t h
            rw [hstep] at h
            exact ih3 t h
        | empty pe oa ea =>
          by_cases hpe : pe = true
          · by_cases halive : (oa || ea) = true
            · have hstep : consumerLoop budget gOk st (t0 :: ts) =
                  consumerLoop budget gOk st ts := by
                simp [consumerLoop, hcond, htime, hg, hpe, halive]
              obtain ⟨ih1, ih2, ih3⟩ := ih st
              refine ⟨?_, ?_, ?_⟩
              · intro t stAt ops h
                rw [hstep] at h
                obtain ⟨hmem, hrest⟩ := ih1 t stAt ops h
                exact ⟨List.mem_cons_of_mem _ hmem, hrest⟩
              · intro t h
                rw [hstep] at h
                rw [hstep]
                exact ih2 t h
              · intro t h
                rw [hstep] at h
                exact ih3 t h
            · have hoa : oa = false := by
                cases hx : oa
                · rfl
                · exact absurd (by rw [hx]; rfl) halive
              have hea : ea = false := by
                cases hx : ea
                · rfl
                · exact absurd (by rw [hoa, hx]; rfl) halive
              have hstep : consumerLoop budget gOk st (t0 :: ts) = (st, .exitBroke t0) := by
                simp [consumerLoop, hcond, htime, hg, hpe, hoa, hea]
              refine ⟨?_, ?_, ?_⟩
              · intro t stAt ops h
                rw [hstep] at h
                exact absurd h (by simp)
              · intro t h
                rw [hstep] at h
                exact absurd h (by simp)
              · intro t h
                rw [hstep] at h
                injection h with h
                subst h
                rw [hg, hpe, hoa, hea]
          · have hpe2 : pe = false := by
              cases hx : pe
              · rfl
              · exact absurd hx hpe
            have hstep : consumerLoop budget gOk st (t0 :: ts) =
                consumerLoop budget gOk st ts := by
              simp [consumerLoop, hcond, htime, hg, hpe2]
            obtain ⟨ih1, ih2, ih3⟩ := ih st
            refine ⟨?_, ?_, ?_⟩
            · intro t stAt ops h
              rw [hstep] at h
              obtain ⟨hmem, hrest⟩ := ih1 t stAt ops h
              exact ⟨List.mem_cons_of_mem _ hmem, hrest⟩
            · intro t h
              rw [hstep] at h
              rw [hstep]
              exact ih2 t h
            · intro t h
              rw [hstep] at h
              exact ih3 t h

/-- A done-flag in the loop's final state can only come from the start
state or from a sentinel received on the corresponding stream. -/
theorem consumerLoop_done_src (budget : ℚ) (gOk : Bool) :
    ∀ (ticks : List Tick) (st : LoopState),
      ((consumerLoop budget gOk st ticks).1.doneOut = true →
        st.doneOut = true ∨ ∃ a ∈ ticks, a.get = QueueGet.item SName.stdout none) ∧
      ((consumerLoop budget gOk st ticks).1.doneErr = true →
        st.doneErr = true ∨ ∃ a ∈ ticks, a.get = QueueGet.item SName.stderr none) := by
  intro ticks
  induction ticks with
  | nil =>
    intro st
    constructor
    · intro h
      exact Or.inl (by simpa [consumerLoop] using h)
    · intro h
      exact Or.inl (by simpa [consumerLoop] using h)
  | cons t0 ts ih =>
    intro st
    by_cases hcond : (st.doneOut && st.doneErr && t0.queueIsEmpty) = true
    · have hstep : consumerLoop budget gOk st (t0 :: ts) = (st, .exitNormal t0) := by
        simp [consumerLoop, hcond]
      constructor
      · intro h
        rw [hstep] at h
        exact Or.inl h
      · intro h
        rw [hstep] at h
        exact Or.inl h
    · by_cases htime : budget < t0.elapsed
      · have hstep : consumerLoop budget gOk st (t0 :: ts) =
            (st, .timeoutFailure t0 st
              ([ProcOp.terminate] ++ (if gOk then [] else [ProcOp.kill]) ++
               [ProcOp.cleanupTemp])) := by
          simp [consumerLoop, hcond, htime]
        constructor
        · intro h
          rw [hstep] at h
          exact Or.inl h
        · intro h
          rw [hstep] at h
          exact Or.inl h
      · cases hg : t0.get with
        | item s l =>
          have hstep : consumerLoop budget gOk st (t0 :: ts) =
              consumerLoop budget gOk (processItem st s l) ts := by
            simp [consumerLoop, hcond, htime, hg]
          constructor
          · intro h
            rw [hstep] at h
            cases s with
            | stdout =>
              cases l with
              | none =>
                exact Or.inr ⟨t0, List.mem_cons_self .., hg⟩
              | some line =>
                rcases (ih (processItem st SName.stdout (some line))).1 h with h2 | ⟨a, ha, hag⟩
                · exact Or.inl (by simpa [processItem] using h2)
                · exact Or.inr ⟨a, List.mem_cons_of_mem _ ha, hag⟩
            | stderr =>
              rcases (ih (processItem st SName.stderr l)).1 h with h2 | ⟨a, ha, hag⟩
              · refine Or.inl ?_
                cases l with
                | none => simpa [processItem] using h2
                | some line => simpa [processItem] using h2
              · exact Or.inr ⟨a, List.mem_cons_of_mem _ ha, hag⟩
          · intro h
            rw [hstep] at h
            cases s with
            | stderr =>
              cases l with
              | none =>
                exact Or.inr ⟨t0, List.mem_cons_self .., hg⟩
              | some line =>
                rcases (ih (processItem st SName.stderr (some line))).2 h with h2 | ⟨a, ha, hag⟩
                · exact Or.inl (by simpa [processItem] using h2)
                · exact Or.inr ⟨a, List.mem_cons_of_mem _ ha, hag⟩
            | stdout =>
              rcases (ih (processItem st SName.stdout l)).2 h with h2 | ⟨a, ha, hag⟩
              · refine Or.inl ?_
                cases l with
                | none => simpa [processItem] using h2
                | some line => simpa [processItem] using h2
              · exact Or.inr ⟨a, List.mem_cons_of_mem _ ha, hag⟩
        | empty pe oa ea =>
          by_cases hpe : pe = true
          · by_cases halive : (oa || ea) = true
            · have hstep : consumerLoop budget gOk st (t0 :: ts) =
                  consumerLoop budget gOk st ts := by
                simp [consumerLoop, hcond, htime, hg, hpe, halive]
              constructor
              · intro h
                rw [hstep] at h
                rcases (ih st).1 h with h2 | ⟨a, ha, hag⟩
                · exact Or.inl h2
                · exact Or.inr ⟨a, List.mem_cons_of_mem _ ha, hag⟩
              · intro h
                rw [hstep] at h
                rcases (ih st).2 h with h2 | ⟨a, ha, hag⟩
                · exact Or.inl h2
                · exact Or.inr ⟨a, List.mem_cons_of_mem _ ha, hag⟩
            · have hoa : oa = false := by
                cases hx : oa
                · rfl
                · exact absurd (by rw [hx]; rfl) halive
              have hea : ea = false := by
                cases hx : ea
                · rfl
                · exact absurd (by rw [hoa, hx]; rfl) halive
              have hstep : consumerLoop budget gOk st (t0 :: ts) = (st, .exitBroke t0) := by
                simp [consumerLoop, hcond, htime, hg, hpe, hoa, hea]
              constructor
              · intro h
                rw [hstep] at h
                exact Or.inl h
              · intro h
                rw [hstep] at h
                exact Or.inl h
          · have hpe2 : pe = false := by
              cases hx : pe
              · rfl
              · exact absurd hx hpe
            have hstep : consumerLoop budget gOk st (t0 :: ts) =
                consumerLoop budget gOk st ts := by
              simp [consumerLoop, hcond, htime, hg, hpe2]
            constructor
            · intro h
              rw [hstep] at h
              rcases (ih st).1 h with h2 | ⟨a, ha, hag⟩
              · exact Or.inl h2
              · exact Or.inr ⟨a, List.mem_cons_of_mem _ ha, hag⟩
            · intro h
              rw [hstep] at h
              rcases (ih st).2 h with h2 | ⟨a, ha, hag⟩
              · exact Or.inl h2
              · exact Or.inr ⟨a, List.mem_cons_of_mem _ ha, hag⟩

/-- Claim C3: starting from the initial consumer-loop state, a timeout
exit happens only on an iteration whose elapsed wall-clock time exceeds
the 3600-second budget while the loop is still running; it terminates
the child, escalates to `kill` exactly when the graceful wait fails,
attempts cleanup, and the single-shot job then returns a failed result
with the timeout-specific error.  Otherwise the loop ends only with
both stream sentinels received and the queue observed empty, or via the
`queue.Empty` break with the process exited and both reader threads
finished. -/
theorem c3_timeout_and_loop_exit (gOk : Bool) (ticks : List Tick) :
    (∀ t stAt ops,
      (consumerLoop 3600 gOk initLoopState ticks).2 = .timeoutFailure t stAt ops →
      t ∈ ticks ∧ (3600 : ℚ) < t.elapsed ∧
      ¬(stAt.doneOut = true ∧ stAt.doneErr = true ∧ t.queueIsEmpty = true) ∧
      ProcOp.terminate ∈ ops ∧ ProcOp.cleanupTemp ∈ ops ∧
      (ProcOp.kill ∈ ops ↔ gOk = false) ∧
      (∀ (args : TAArgs) (cfg : Config) (fmt : OutputFormat) (mdl : WhisperModel)
        (env : SingleEnv) (opath : String),
        env.ticks = ticks → env.gracefulOk = gOk →
        env.setupPre = .ok () → env.spawn = .ok () →
        resolveOutputPathSingle args cfg env = .ok opath →
        (transcribeAudioSingle args cfg fmt mdl env).1 =
          PyRun.ret
            { success := false
              error := some
                "Error transcribing audio: Transcription timed out after 3600 seconds" })) ∧
    (∀ t, (consumerLoop 3600 gOk initLoopState ticks).2 = .exitNormal t →
      (consumerLoop 3600 gOk initLoopState ticks).1.doneOut = true ∧
      (consumerLoop 3600 gOk initLoopState ticks).1.doneErr = true ∧
      t.queueIsEmpty = true ∧
      (∃ a ∈ ticks, a.get = QueueGet.item SName.stdout none) ∧
      (∃ b ∈ ticks, b.get = QueueGet.item SName.stderr none)) ∧
    (∀ t, (consumerLoop 3600 gOk initLoopState ticks).2 = .exitBroke t →
      t.get = QueueGet.empty true false false) := by
  obtain ⟨hc1, hc2, hc3⟩ := consumerLoop_cases 3600 gOk ticks initLoopState
  refine ⟨?_, ?_, hc3⟩
  · intro t stAt ops h
    obtain ⟨hmem, helapsed, hcond, hops⟩ := hc1 t stAt ops h
    refine ⟨hmem, helapsed, hcond, ?_, ?_, ?_, ?_⟩
    · rw [hops]
      cases gOk <;> decide
    · rw [hops]
      cases gOk <;> decide
    · rw [hops]
      cases gOk <;> simp
    · intro args cfg fmt mdl env opath hticks hgok hsetup hspawn hpre
      rcases hL : consumerLoop 3600 gOk initLoopState ticks with ⟨stf, ex⟩
      rw [hL] at h
      simp only at h
      subst h
      simp only [transcribeAudioSingle, hpre, hsetup, hspawn, hticks, hgok, hL]
      rfl
  · intro t h
    obtain ⟨hdo, hde, hqe⟩ := hc2 t h
    obtain ⟨hsrc1, hsrc2⟩ := consumerLoop_done_src 3600 gOk ticks initLoopState
    refine ⟨hdo, hde, hqe, ?_, ?_⟩
    · rcases hsrc1 hdo with h2 | h2
      · exact absurd h2 (by simp [initLoopState])
      · exact h2
    · rcases hsrc2 hde with h2 | h2
      · exact absurd h2 (by simp [initLoopState])
      · exact h2

/-- Witness for C3: a schedule whose first tick exceeds the budget. -/
theorem c3_witness :
    (transcribeAudioSingle wArgs wCfg OutputFormat.json WhisperModel.largeV3Turbo
        { wSingleEnv with ticks := [⟨3601, false, QueueGet.empty false true true⟩] }).1 =
      PyRun.ret
        { success := false
          error := some
            "Error transcribing audio: Transcription timed out after 3600 seconds" } := by
  have h := (c3_timeout_and_loop_exit true
      [⟨3601, false, QueueGet.empty false true true⟩]).1
    ⟨3601, false, QueueGet.empty false true true⟩ initLoopState
    [ProcOp.terminate, ProcOp.cleanupTemp] (by rfl)
  exact h.2.2.2.2.2.2 wArgs wCfg OutputFormat.json WhisperModel.largeV3Turbo
    { wSingleEnv with ticks := [⟨3601, false, QueueGet.empty false true true⟩] }
    "out.json" rfl rfl rfl rfl rfl

/-- Dropping a prefix never lengthens a list. -/
theorem dropWhile_len_le {α : Type} (p : α → Bool) :
    ∀ l : List α, (l.dropWhile p).length ≤ l.length := by
  intro l
  induction l with
  | nil => simp
  | cons a t ih =>
    by_cases h : p a = true
    · simp only [List.dropWhile_cons, h, if_true]
      exact ih.trans (Nat.le_succ _)
    · simp [List.dropWhile_cons, h]

/-- Every piece produced by `splitWords` is a non-empty run of
non-whitespace characters. -/
theorem splitWords_pieces :
    ∀ (n : Nat) (s : List Char), s.length ≤ n →
      ∀ w ∈ splitWords s, w ≠ [] ∧ ∀ c ∈ w, wsChar c = false := by
  intro n
  induction n with
  | zero =>
    intro s hs w hw
    have : s = [] := by
      cases s with
      | nil => rfl
      | cons c r => simp at hs
    subst this
    simp [splitWords] at hw
  | succ n ih =>
    intro s hs w hw
    cases s with
    | nil => simp [splitWords] at hw
    | cons c r =>
      by_cases hc : wsChar c = true
      · rw [splitWords, if_pos hc] at hw
        exact ih r (by simpa using Nat.le_of_succ_le_succ hs) w hw
      · rw [splitWords, if_neg hc] at hw
        rcases List.mem_cons.mp hw with rfl | hw
        · refine ⟨by simp, ?_⟩
          intro ch hch
          rcases List.mem_cons.mp hch with rfl | hch
          · simpa using hc
          · have := List.mem_takeWhile_imp hch
            simpa using this
        · refine ih (r.dropWhile (fun x => !wsChar x)) ?_ w hw
          exact (dropWhile_len_le _ r).trans (by simpa using Nat.le_of_succ_le_succ hs)

/-- Length of the separator-word tail of a rendering. -/
theorem renderAux_length (brk : Option Nat) :
    ∀ (l : List Str) (i : Nat),
      (renderAux brk i l).length = (l.map (fun w => w.length + 1)).sum := by
  intro l
  induction l with
  | nil => intro i; simp [renderAux]
  | cons w r ih =>
    intro i
    simp [renderAux, ih (i + 1)]
    omega

/-- `joinLen` as a sum. -/
theorem joinLen_eq : ∀ (w : Str) (r : List Str),
    joinLen (w :: r) = w.length + (r.map (fun x => x.length + 1)).sum := by
  intro w r
  induction r generalizing w with
  | nil => simp [joinLen]
  | cons w2 r2 ih =>
    rw [show joinLen (w :: w2 :: r2) = w.length + 1 + joinLen (w2 :: r2) from rfl, ih w2]
    simp
    omega

/-- Rendering (with or without the line break) has length `joinLen`:
the break replaces one separator character by another. -/
theorem renderWords_length (brk : Option Nat) (ws : List Str) :
    (renderWords brk ws).length = joinLen ws := by
  cases ws with
  | nil => simp [renderWords, joinLen]
  | cons w r =>
    rw [renderWords]
    · rw [List.length_append, renderAux_length, joinLen_eq]

/-- Splitting a non-empty whitespace-free word followed by whitespace
(or nothing) yields that word and the split of the rest. -/
theorem splitWords_word_front (w : Str) (hne : w ≠ [])
    (hnw : ∀ c ∈ w, wsChar c = false) (l : Str)
    (hl : l = [] ∨ ∃ c r, l = c :: r ∧ wsChar c = true) :
    splitWords (w ++ l) = w :: splitWords l := by
  obtain ⟨c0, w2, rfl⟩ : ∃ c0 w2, w = c0 :: w2 := by
    cases w with
    | nil => exact absurd rfl hne
    | cons a b => exact ⟨a, b, rfl⟩
  have hc0 : wsChar c0 = false := hnw c0 (List.mem_cons_self ..)
  have hspan := takeWhile_app (fun x => !wsChar x) w2 l
    (by
      intro c hc
      simp [hnw c (List.mem_cons_of_mem _ hc)])
    (by
      intro y t ht
      rcases hl with rfl | ⟨c, r, rfl, hws⟩
      · exact absurd ht (by simp)
      · injection ht with h1 _
        subst h1
        simp [hws])
  rw [List.cons_append, splitWords, if_neg (by simp [hc0])]
  rw [hspan.1, hspan.2]

/-- The rendering tail is empty or starts with a whitespace separator. -/
theorem renderAux_head (brk : Option Nat) (l : List Str) (i : Nat) :
    renderAux brk i l = [] ∨
    ∃ c r, renderAux brk i l = c :: r ∧ wsChar c = true := by
  cases l with
  | nil => exact Or.inl rfl
  | cons w r =>
    refine Or.inr ⟨(if brk = some i then '\n' else ' '), w ++ renderAux brk (i + 1) r, ?_, ?_⟩
    · simp [renderAux]
    · by_cases hb : brk = some i <;> simp [hb, wsChar]

/-- Splitting the rendering of good words recovers the words. -/
theorem splitWords_renderAux (brk : Option Nat) :
    ∀ (l : List Str) (i : Nat),
      (∀ w ∈ l, w ≠ [] ∧ ∀ c ∈ w, wsChar c = false) →
      splitWords (renderAux brk i l) = l := by
  intro l
  induction l with
  | nil => intro i _; simp [renderAux, splitWords]
  | cons w r ih =>
    intro i hgood
    have hw := hgood w (List.mem_cons_self ..)
    have hsep : wsChar (if brk = some i then '\n' else ' ') = true := by
      by_cases hb : brk = some i <;> simp [hb, wsChar]
    rw [show renderAux brk i (w :: r) =
        (if brk = some i then '\n' else ' ') :: (w ++ renderAux brk (i + 1) r) from rfl]
    rw [splitWords, if_pos hsep]
    rw [splitWords_word_front w hw.1 hw.2 _ (renderAux_head brk r (i + 1))]
    rw [ih (i + 1) (fun x hx => hgood x (List.mem_cons_of_mem _ hx))]

/-- `splitWords` is a left inverse of `renderWords` on good words. -/
theorem splitWords_renderWords (brk : Option Nat) (ws : List Str)
    (hgood : ∀ w ∈ ws, w ≠ [] ∧ ∀ c ∈ w, wsChar c = false) :
    splitWords (renderWords brk ws) = ws := by
  cases ws with
  | nil => simp [renderWords, splitWords]
  | cons w r =>
    have hw := hgood w (List.mem_cons_self ..)
    rw [renderWords]
    rw [splitWords_word_front w hw.1 hw.2 _ (renderAux_head brk r 0)]
    rw [splitWords_renderAux brk r 0 (fun x hx => hgood x (List.mem_cons_of_mem _ hx))]

/-- Invariants of the greedy cue accumulation: starting from a valid
open cue, every produced cue respects both bounds and holds good
words, the cues are chained in time, their words concatenate to the
open cue's words followed by the remaining word texts, and the first
produced cue starts where the open cue started. -/
theorem buildCues_spec (mc : Nat) (md : ℚ) :
    ∀ (l : List TW) (cur : Cue),
      cur.cws ≠ [] →
      joinLen cur.cws ≤ mc →
      cur.cend - cur.cstart ≤ md →
      (∀ w ∈ cur.cws, w ≠ [] ∧ ∀ c ∈ w, wsChar c = false) →
      (∀ w ∈ l, w.text.length ≤ mc ∧ w.tend - w.tstart ≤ md ∧
        w.text ≠ [] ∧ ∀ c ∈ w.text, wsChar c = false) →
      List.Chain' (fun a b => a.tend ≤ b.tstart) l →
      (∀ w0 ∈ l.head?, cur.cend ≤ w0.tstart) →
      (∀ c ∈ buildCues mc md l cur,
        c.cws ≠ [] ∧ joinLen c.cws ≤ mc ∧ c.cend - c.cstart ≤ md ∧
        ∀ w ∈ c.cws, w ≠ [] ∧ ∀ ch ∈ w, wsChar ch = false) ∧
      List.Chain' (fun a b => a.cend ≤ b.cstart) (buildCues mc md l cur) ∧
      (buildCues mc md l cur).flatMap (fun c => c.cws) =
        cur.cws ++ l.map (fun w => w.text) ∧
      (∃ c0 rest, buildCues mc md l cur = c0 :: rest ∧ c0.cstart = cur.cstart) := by
  intro l
  induction l with
  | nil =>
    intro cur h1 h2 h3 h4 _ _ _
    refine ⟨?_, by simp [buildCues], by simp [buildCues], ⟨cur, [], rfl, rfl⟩⟩
    intro c hc
    rw [show buildCues mc md [] cur = [cur] from rfl, List.mem_singleton] at hc
    subst hc
    exact ⟨h1, h2, h3, h4⟩
  | cons w l2 ih =>
    intro cur h1 h2 h3 h4 hl hchain hhead
    have hw := hl w (List.mem_cons_self ..)
    have hl2 : ∀ w2 ∈ l2, w2.text.length ≤ mc ∧ w2.tend - w2.tstart ≤ md ∧
        w2.text ≠ [] ∧ ∀ c ∈ w2.text, wsChar c = false :=
      fun w2 hw2 => hl w2 (List.mem_cons_of_mem _ hw2)
    obtain ⟨hnext, hchain2⟩ := List.chain'_cons'.mp hchain
    by_cases hca : canAdd mc md cur w = true
    · have hca2 : joinLen (cur.cws ++ [w.text]) ≤ mc ∧ w.tend - cur.cstart ≤ md := by
        rw [canAdd, Bool.and_eq_true, decide_eq_true_eq, decide_eq_true_eq] at hca
        exact hca
      have hstep : buildCues mc md (w :: l2) cur =
          buildCues mc md l2 ⟨cur.cws ++ [w.text], cur.cstart, w.tend⟩ := by
        rw [buildCues, if_pos hca]
      obtain ⟨ih1, ih2, ih3, ih4⟩ := ih ⟨cur.cws ++ [w.text], cur.cstart, w.tend⟩
        (by simp)
        hca2.1
        hca2.2
        (by
          intro x hx
          rcases List.mem_append.mp hx with hx | hx
          · exact h4 x hx
          · rw [List.mem_singleton] at hx
            subst hx
            exact ⟨hw.2.2.1, hw.2.2.2⟩)
        hl2 hchain2 hnext
      rw [hstep]
      refine ⟨ih1, ih2, ?_, ?_⟩
      · rw [ih3]
        simp
      · obtain ⟨c0, rest, heq, hc0⟩ := ih4
        exact ⟨c0, rest, heq, hc0⟩
    · have hstep : buildCues mc md (w :: l2) cur =
          cur :: buildCues mc md l2 (cueOfWord w) := by
        rw [buildCues, if_neg hca]
      obtain ⟨ih1, ih2, ih3, ih4⟩ := ih (cueOfWord w)
        (by simp [cueOfWord])
        (by
          rw [show joinLen (cueOfWord w).cws = w.text.length from rfl]
          exact hw.1)
        (by
          rw [show (cueOfWord w).cend = w.tend from rfl,
            show (cueOfWord w).cstart = w.tstart from rfl]
          exact hw.2.1)
        (by
          intro x hx
          rw [show (cueOfWord w).cws = [w.text] from rfl, List.mem_singleton] at hx
          subst hx
          exact ⟨hw.2.2.1, hw.2.2.2⟩)
        hl2 hchain2
        (by
          intro w0 hw0
          rw [show (cueOfWord w).cend = w.tend from rfl]
          exact hnext w0 hw0)
      rw [hstep]
      obtain ⟨c0, rest, heq, hc0⟩ := ih4
      refine ⟨?_, ?_, ?_, ⟨cur, buildCues mc md l2 (cueOfWord w), rfl, rfl⟩⟩
      · intro c hc
        rcases List.mem_cons.mp hc with rfl | hc
        · exact ⟨h1, h2, h3, h4⟩
        · exact ih1 c hc
      · rw [heq]
        rw [List.chain'_cons']
        constructor
        · intro b hb
          rw [heq] at ih2
          simp only [List.head?_cons] at hb
          have hb2 : b = c0 := by
            cases hb
            rfl
          subst hb2
          rw [hc0]
          rw [show (cueOfWord w).cstart = w.tstart from rfl]
          exact hhead w rfl
        · rw [heq] at ih2
          exact ih2
      · rw [List.flatMap_cons, ih3]
        simp [cueOfWord]

/-- Every interpolated word's text is a `splitWords` piece: non-empty
and whitespace-free. -/
theorem timedWords_text_good (segs : List ASeg) :
    ∀ w ∈ timedWords segs, w.text ≠ [] ∧ ∀ c ∈ w.text, wsChar c = false := by
  intro w hw
  rw [timedWords] at hw
  obtain ⟨sg, hsg, hwsg⟩ := List.mem_flatMap.mp hw
  rw [segTimedWords] at hwsg
  obtain ⟨iw, hiw, hmap⟩ := List.mem_map.mp hwsg
  obtain ⟨i, t⟩ := iw
  have htext : w.text = t := by rw [← hmap]
  have hmem : t ∈ splitWords sg.text := by
    have h3 := List.mem_enumFrom (by simpa [List.enum] using hiw)
    rw [h3.2.2]
    exact List.getElem_mem _
  rw [htext]
  exact splitWords_pieces sg.text.length sg.text (Nat.le_refl _) t hmem

/-- Sequential numbering of the enumerated cues. -/
theorem enumFrom_succ_fst {α : Type} :
    ∀ (l : List α) (k : Nat),
      (List.enumFrom k l).map (fun ic => ic.1 + 1) = List.range' (k + 1) l.length := by
  intro l
  induction l with
  | nil => intro k; rfl
  | cons a r ih =>
    intro k
    show (k + 1) :: (List.enumFrom (k + 1) r).map (fun ic => ic.1 + 1) = _
    rw [ih (k + 1)]
    rfl

/-- The cue numbers are `1, 2, …, n`. -/
theorem numberCues_fst (cs : List Cue) :
    (numberCues cs).map Prod.fst = List.range' 1 cs.length := by
  rw [numberCues, List.map_map]
  have : (Prod.fst ∘ fun ic : Nat × Cue => (ic.1 + 1, ic.2)) = fun ic => ic.1 + 1 := rfl
  rw [this]
  have h2 : cs.enum = List.enumFrom 0 cs := by simp [List.enum]
  rw [h2, enumFrom_succ_fst]

/-- Pointwise-equal functions give equal `flatMap`s. -/
theorem flatMap_congr {α β : Type} (l : List α) (f g : α → List β)
    (h : ∀ a ∈ l, f a = g a) : l.flatMap f = l.flatMap g := by
  induction l with
  | nil => rfl
  | cons a r ih =>
    rw [List.flatMap_cons, List.flatMap_cons, h a (List.mem_cons_self ..),
      ih (fun x hx => h x (List.mem_cons_of_mem _ hx))]

/-- Claim C9 (amended): for segments each of whose interpolated words
fits the character bound and the duration bound, and whose interpolated
words are time-ordered, every generated cue has rendered text of length
at most `max_chars` and duration at most `max_duration`, the cues are
time-ordered and non-overlapping, the cue numbers are `1, …, n`, and
splitting the cue texts back into words (ignoring the inserted line
break, which is itself a whitespace separator) reproduces the original
word sequence verbatim. -/
theorem c9_cue_segmenter_bounds (segs : List ASeg) (mc : Nat) (md : ℚ) (lb : Bool)
    (hw : ∀ w ∈ timedWords segs, w.text.length ≤ mc ∧ w.tend - w.tstart ≤ md)
    (hchain : List.Chain' (fun a b => a.tend ≤ b.tstart) (timedWords segs)) :
    (∀ c ∈ segmentsToCues mc md segs,
      (cueText lb mc c).length ≤ mc ∧ c.cend - c.cstart ≤ md) ∧
    List.Chain' (fun a b => a.cend ≤ b.cstart) (segmentsToCues mc md segs) ∧
    (numberCues (segmentsToCues mc md segs)).map Prod.fst =
      List.range' 1 (segmentsToCues mc md segs).length ∧
    (segmentsToCues mc md segs).flatMap (fun c => splitWords (cueText lb mc c)) =
      (timedWords segs).map (fun w => w.text) := by
  have hgoodall := timedWords_text_good segs
  have hfull : ∀ w ∈ timedWords segs, w.text.length ≤ mc ∧ w.tend - w.tstart ≤ md ∧
      w.text ≠ [] ∧ ∀ c ∈ w.text, wsChar c = false := by
    intro w hwmem
    obtain ⟨ha, hb⟩ := hw w hwmem
    obtain ⟨hc, hd⟩ := hgoodall w hwmem
    exact ⟨ha, hb, hc, hd⟩
  cases htw : timedWords segs with
  | nil =>
    have hcues : segmentsToCues mc md segs = [] := by
      rw [segmentsToCues, htw]
    rw [hcues]
    refine ⟨?_, ?_, ?_, ?_⟩
    · intro c hc
      simp at hc
    · simp
    · rfl
    · rfl
  | cons w0 rest =>
    rw [htw] at hfull hchain
    have hw0 := hfull w0 (List.mem_cons_self ..)
    obtain ⟨hnext, hchain2⟩ := List.chain'_cons'.mp hchain
    have hcues : segmentsToCues mc md segs = buildCues mc md rest (cueOfWord w0) := by
      rw [segmentsToCues, htw]
    obtain ⟨hs1, hs2, hs3, hs4⟩ := buildCues_spec mc md rest (cueOfWord w0)
      (by simp [cueOfWord])
      (by
        rw [show joinLen (cueOfWord w0).cws = w0.text.length from rfl]
        exact hw0.1)
      (by
        rw [show (cueOfWord w0).cend = w0.tend from rfl,
          show (cueOfWord w0).cstart = w0.tstart from rfl]
        exact hw0.2.1)
      (by
        intro x hx
        rw [show (cueOfWord w0).cws = [w0.text] from rfl, List.mem_singleton] at hx
        subst hx
        exact ⟨hw0.2.2.1, hw0.2.2.2⟩)
      (fun w2 hw2 => hfull w2 (List.mem_cons_of_mem _ hw2))
      hchain2
      (by
        intro z hz
        rw [show (cueOfWord w0).cend = w0.tend from rfl]
        exact hnext z hz)
    rw [hcues]
    refine ⟨?_, hs2, numberCues_fst _, ?_⟩
    · intro c hc
      obtain ⟨hne, hjl, hdur, hgood⟩ := hs1 c hc
      refine ⟨?_, hdur⟩
      rw [cueText, renderWords_length]
      exact hjl
    · rw [flatMap_congr _ _ (fun c => c.cws) ?hsw]
      case hsw =>
        intro c hc
        obtain ⟨hne, hjl, hdur, hgood⟩ := hs1 c hc
        rw [cueText]
        exact splitWords_renderWords _ c.cws hgood
      rw [hs3]
      rw [show (cueOfWord w0).cws = [w0.text] from rfl]
      rfl


/-- Counterexample to C9 as stated: a single 25-character word cannot
be split below `max_chars = 20`, so the (only) generated cue violates
the character bound. -/
theorem c9_counterexample :
    ∃ c ∈ segmentsToCues 20 10 [⟨wBig, 0, 1⟩],
      ¬((cueText true 20 c).length ≤ 20) := by
  have hlen : wBig.length = 25 := rfl
  have hsw : splitWords wBig = [wBig] := by
    simp [wBig, splitWords, wsChar, List.replicate]
  have htw : timedWords [⟨wBig, 0, 1⟩] = [⟨wBig, 0, 1⟩] := by
    simp [timedWords, segTimedWords, hsw]
  have hcues : segmentsToCues 20 10 [⟨wBig, 0, 1⟩] = [⟨[wBig], 0, 1⟩] := by
    rw [segmentsToCues, htw]
    rfl
  refine ⟨⟨[wBig], 0, 1⟩, by rw [hcues]; exact List.mem_singleton.mpr rfl, ?_⟩
  have htext : cueText true 20 ⟨[wBig], 0, 1⟩ = wBig := by
    simp [cueText, pickBreak, joinLen, hlen, renderWords, renderAux, chooseMinAux]
  rw [htext, hlen]
  simp

/-- Witness for the amended C9: two one-word segments satisfy the
word-fit and time-ordering hypotheses, and the segmenter delivers
sequential numbering and verbatim word recovery. -/
theorem c9_witness :
    (numberCues (segmentsToCues 40 10
        [⟨['h', 'i'], 0, 1⟩, ⟨['y', 'o'], 1, 2⟩])).map Prod.fst =
      List.range' 1 (segmentsToCues 40 10
        [⟨['h', 'i'], 0, 1⟩, ⟨['y', 'o'], 1, 2⟩]).length ∧
    (segmentsToCues 40 10 [⟨['h', 'i'], 0, 1⟩, ⟨['y', 'o'], 1, 2⟩]).flatMap
        (fun c => splitWords (cueText true 40 c)) =
      (timedWords [⟨['h', 'i'], 0, 1⟩, ⟨['y', 'o'], 1, 2⟩]).map (fun w => w.text) := by
  have h := c9_cue_segmenter_bounds [⟨['h', 'i'], 0, 1⟩, ⟨['y', 'o'], 1, 2⟩] 40 10 true
    (by
      intro w hwmem
      simp [timedWords, segTimedWords, splitWords, wsChar] at hwmem
      rcases hwmem with rfl | rfl
      · exact ⟨by norm_num, by norm_num⟩
      · exact ⟨by norm_num, by norm_num⟩)
    (by
      simp [timedWords, segTimedWords, splitWords, wsChar, List.chain'_cons])
  exact ⟨h.2.2.1, h.2.2.2⟩
